import Mathlib

/-!
# Verification of the `cali` calendar library

A shallow embedding of the core of the `cali` Go library (calendar events,
recurrence generation, validation, query matching, edit cascading, and the
in-memory data store) together with theorems settling the specification
claims about it.

Modelling conventions:

* Go `YYYY-MM-DD` day strings are represented by their parse result
  `Option Date`: `some d` for a string that `time.Parse(time.DateOnly, s)`
  accepts (hence `d` is a canonical civil date with year in 0..9999) and
  `none` for any string it rejects.  Lexicographic comparison of two valid
  zero-padded day strings coincides with chronological comparison of the
  parsed dates, which is how comparisons are modelled.
* Go `HH:MM` time-of-day strings are represented by `TimeVal`:
  `tvalid m` (minute of day) for a string `time.Parse("15:04", s)` accepts,
  `tempty` for the empty string, `tinvalid` for any other rejected string.
* Go `time.Time` values (always UTC here) are represented by `Time`:
  a canonical civil date plus a nanosecond offset within the day.
  `Before`/`After` are instant comparisons, modelled as lexicographic
  comparison of (date, offset).
* Go's `time.AddDate` normalizes the shifted civil triple exactly as the
  `addDate` function below does on the canonical dates and small shifts
  ((0,0,1), (0,1,0), (1,0,0)) that the library uses.
* Machine integers (`int64`) are modelled as `Int`, bitmasks (`uint32`)
  as `Nat` with bitwise and; no arithmetic in the library approaches the
  overflow boundaries.
* Functions returning `(value, error)` are modelled with `Option`/`Except`;
  the two unbounded generation loops are modelled with an explicit fuel
  parameter (`none` = the loop did not finish within the given fuel, for
  any fuel).

The repository contains two historical variants of several files; the
embedding follows the coherent, current set (the `Invite`-based model and
`Query.Matches` of part_008, the `GenerateRepeatEvents` of part_009 that
returns its event list, `data_store.go`, and the `DataStore`-based
`Calendar`), which is the only set the data store and calendar code
compile against.  `ValidTimes` is referenced by `Validate` but missing
from the sources; it is modelled from the spec (see its doc comment).
-/

/-! ## Calendar dates -/

/-- Leap year test, as in Go's `time` package (`y%4 == 0 && y%100 != 0 || y%400 == 0`;
test-against-zero of truncated and euclidean remainder agree). -/
def isLeap (y : Int) : Bool :=
  (y % 4 == 0 && y % 100 != 0) || y % 400 == 0

/-- Number of days in month `m` (1..12) of year `y`. -/
def daysInMonth (y : Int) (m : Nat) : Nat :=
  if m = 2 then (if isLeap y then 29 else 28)
  else if m = 4 || m = 6 || m = 9 || m = 11 then 30
  else 31

/-- A civil date: year, month, day. -/
structure Date where
  y : Int
  m : Nat
  d : Nat
deriving DecidableEq, Repr

/-- A canonical (normalized) civil date, as stored inside a Go `time.Time`. -/
def DateOK (t : Date) : Prop :=
  1 ≤ t.m ∧ t.m ≤ 12 ∧ 1 ≤ t.d ∧ t.d ≤ daysInMonth t.y t.m

instance (t : Date) : Decidable (DateOK t) := by
  unfold DateOK; infer_instance

/-- Chronological strict order on civil dates (for canonical dates this is
also the lexicographic order of the formatted `YYYY-MM-DD` strings while
the year has at most four digits). -/
def dateLtB (a b : Date) : Bool :=
  a.y < b.y || (a.y == b.y && (a.m < b.m || (a.m == b.m && a.d < b.d)))

/-- Chronological non-strict order on civil dates. -/
def dateLeB (a b : Date) : Bool :=
  dateLtB a b || a == b

/-- Day-overflow carry used to normalize a civil triple whose day field may
exceed the month length (Go's `time.Date` performs the same normalization
through epoch-day arithmetic).  The fuel is ample for every shift the
library performs (day overflow of at most one month). -/
def dayCarry : Nat → Int → Nat → Int → Date
  | 0, y, m, d => ⟨y, m, d.toNat⟩
  | fuel + 1, y, m, d =>
    if d < 1 then
      (if m = 1 then dayCarry fuel (y - 1) 12 (d + 31)
       else dayCarry fuel y (m - 1) (d + (daysInMonth y (m - 1) : Int)))
    else if d ≤ (daysInMonth y m : Int) then ⟨y, m, d.toNat⟩
    else dayCarry fuel (if m = 12 then y + 1 else y) (if m = 12 then 1 else m + 1)
      (d - (daysInMonth y m : Int))

/-- Go's `Time.AddDate(dy, dm, dd)`: shift the civil fields and normalize
(months with floor division into years, then day-overflow carry). -/
def addDate (dy dm dd : Int) (t : Date) : Date :=
  let mi : Int := (t.m : Int) + dm - 1
  let y1 : Int := t.y + dy + mi.fdiv 12
  let m1 : Nat := (mi.fmod 12).toNat + 1
  dayCarry 1000 y1 m1 ((t.d : Int) + dd)

/-- Epoch-day number of a civil date (days since 1970-01-01), the standard
civil-from-days inverse-free computation; used only to compute weekdays. -/
def daysFromCivil (t : Date) : Int :=
  let y : Int := if t.m ≤ 2 then t.y - 1 else t.y
  let era : Int := y.fdiv 400
  let yoe : Int := y - era * 400
  let mp : Int := if t.m > 2 then (t.m : Int) - 3 else (t.m : Int) + 9
  let doy : Int := (153 * mp + 2).fdiv 5 + (t.d : Int) - 1
  let doe : Int := yoe * 365 + yoe.fdiv 4 - yoe.fdiv 100 + doy
  era * 146097 + doe - 719468

/-- Weekday of a civil date, Go numbering (0 = Sunday); 1970-01-01 was a
Thursday. -/
def weekday (t : Date) : Nat :=
  ((daysFromCivil t + 4).emod 7).toNat

/-! ## Instants (`time.Time`, always UTC here) -/

def nsPerMinute : Int := 60 * 1000000000

def nsPerDay : Int := 24 * 60 * nsPerMinute

/-- An instant: a canonical civil date plus a nanosecond offset inside the
day.  Go's `time.Time` stores the same instant as an integer; for canonical
dates the lexicographic order below is the instant order. -/
structure Time where
  day : Date
  ofs : Int
deriving DecidableEq, Repr

/-- Instant strict order (`a.Before(b)` in Go). -/
def timeLtB (a b : Time) : Bool :=
  dateLtB a.day b.day || (a.day == b.day && a.ofs < b.ofs)

/-- Midnight (00:00:00 UTC) of a civil date; this is what
`time.Parse(time.DateOnly, s)` produces. -/
def midnight (d : Date) : Time := ⟨d, 0⟩

/-- Add `n` days to an instant (used for Go's `t.Add(24*time.Hour)` style
whole-day duration additions, which in UTC move the civil date forward by
exactly `n` calendar days). -/
def timeAddDays (n : Nat) (t : Time) : Time :=
  ⟨addDate 0 0 (n : Int) t.day, t.ofs⟩

/-- Minute-of-day rendered by `t.Format("15:04")`. -/
def timeMinutes (t : Time) : Int :=
  t.ofs.fdiv nsPerMinute

/-! ## Core data model (`model.go` / part_008) -/

/-- Parse result of an `HH:MM` string field. -/
inductive TimeVal where
  | tvalid (minutes : Nat)
  | tempty
  | tinvalid
deriving DecidableEq, Repr

/-- The error values of the library (`errors.New` sentinels). -/
inductive Err where
  | ErrorNotRepeatingEvent
  | ErrorRepeatOccurrenceTooLarge
  | ErrorRepeatOccurrenceTooSmall
  | ErrorRepeatStopDateTooLarge
  | ErrorRepeatStopDateIsBeforeStart
  | ErrorStartDayIsAfterEndDay
  | ErrorStartTimeIsAfterEndTime
  | ErrorMissingEndOfRepeat
  | ErrorEmptyRepeatingEvents
  | ErrorMissingRepeatPattern
  | ErrorInvalidRepeatType
  | ErrorMissingDayOfWeek
  | ErrorInvalidStartDay
  | ErrorInvalidStartTime
  | ErrorInvalidEndDay
  | ErrorInvalidEndTime
  | ErrorTooManyRepeatOccurrences
  | ErrorInvalidDayOfWeek
  | ErrorInvalidZone
  | ErrorInvalidInviteStatus
  | ErrorMissingInvitePermission
  | ErrorIncompatibleInvitePermission
  | ErrorEventNotFound
  | ErrorInvalidStatus
  | ErrorInviteNotFound
  | ErrorInvalidRepeatEditType
deriving DecidableEq, Repr

-- Status constants (`type Status int64`).
def StatusActive : Int := 0
def StatusCanceled : Int := 1
def StatusAbandoned : Int := -2
def StatusRemoved : Int := -1

-- RepeatType constants (`type RepeatType int64`).
def RepeatTypeDaily : Int := 0
def RepeatTypeWeekly : Int := 1
def RepeatTypeMonthly : Int := 2
def RepeatTypeYearly : Int := 3

-- DayOfWeek bitmask constants (`type DayOfWeek = Bitmask`, uint32).
def DayOfWeekSunday : Nat := 1
def DayOfWeekMonday : Nat := 2
def DayOfWeekTuesday : Nat := 4
def DayOfWeekWednesday : Nat := 8
def DayOfWeekThursday : Nat := 16
def DayOfWeekFriday : Nat := 32
def DayOfWeekSaturday : Nat := 64

/-- `Bitmask.HasFlag`: `f&flag != 0`. -/
def hasFlag (f flag : Nat) : Bool :=
  f &&& flag != 0

-- Permission bitmask constants.
def PermissionRead : Nat := 1
def PermissionModify : Nat := 2
def PermissionInvite : Nat := 4
def PermissionCancel : Nat := 8
def PermissionDelete : Nat := 16
def PermissionOwner : Nat :=
  PermissionDelete ||| PermissionCancel ||| PermissionModify ||| PermissionInvite ||| PermissionRead
def PermissionInvitee : Nat := PermissionRead

/-- `MaxRepeatOccurrence` is set to 30 events. -/
def MaxRepeatOccurrence : Int := 30

/-- `MaxRepeatDuration` is 2 years of 24-hour days; together with the extra
day added in the stop-date check this is 731 days. -/
def MaxRepeatDurationDays : Nat := 2 * 365

/-- The recurrence pattern (`type Repeat struct`). -/
structure Repeat where
  repeatType : Int
  dayOfWeek : Nat
  repeatOccurrences : Int
  repeatStopDate : Option Time
deriving DecidableEq, Repr

-- InviteStatus constants (`type InviteStatus int64`).
def InviteStatusPending : Int := 0
def InviteStatusConfirmed : Int := 1
def InviteStatusDeclined : Int := -1
def InviteStatusRevoked : Int := -2

/-- An event (`type Event struct`).  Day-string and time-string fields are
represented by their parse results; the opaque `UserData` JSON payload is
omitted (no claim concerns it). -/
structure Event where
  id : Int := 0
  sourceId : Option Int := none
  parentId : Option Int := none
  ownerId : Int := 0
  eventType : Int := 0
  title : String := ""
  description : Option String := none
  url : Option String := none
  status : Int := 0
  isAllDay : Bool := false
  isRepeating : Bool := false
  «repeat» : Option Repeat := none
  zone : String := ""
  startDay : Option Date := none
  startTime : TimeVal := .tempty
  endDay : Option Date := none
  endTime : TimeVal := .tempty
  created : Int := 0
  updated : Int := 0
deriving DecidableEq, Repr

/-- An invitation (`type Invite struct`). -/
structure Invite where
  eventId : Int := 0
  userId : Int := 0
  status : Int := 0
  permission : Nat := 0
  created : Int := 0
  updated : Int := 0
deriving DecidableEq, Repr

/-! ## Validation (part_008; `ValidTimes` modelled from the spec) -/

/-- Zones accepted by `time.LoadLocation` in the modelled environment.  The
spec treats timezone resolution as an external-primitive contract; the model
fixes a representative set containing the zones the repository itself uses. -/
def KnownZones : List String := ["UTC", "Local", "America/Denver", "America/New_York"]

/-- Lexicographic Go comparison `startTime > endTime` on raw `HH:MM` field
strings, on the parsed representation: two valid times compare by minute,
the empty string precedes every valid time.  Unparseable non-empty strings
(only reachable for all-day events, which the library stores with empty
times) are treated as never greater. -/
def timeValGtB : TimeVal → TimeVal → Bool
  | .tvalid a, .tvalid b => a > b
  | .tvalid _, .tempty => true
  | _, _ => false

/-- Modelled from the spec: `ValidTimes` is called by `Validate` (part_008)
but its definition is absent from the repository sources.  Spec section 4.1,
steps 1-4: start and end dates must parse; if not all-day, start and end
times must parse as `HH:MM`; start (date, then time on equal dates) must
not exceed end; the timezone name must resolve. -/
def ValidTimes (startDay : Option Date) (startTime : TimeVal) (endDay : Option Date)
    (endTime : TimeVal) (zone : String) (isAllDay : Bool) : Option Err :=
  match startDay with
  | none => some .ErrorInvalidStartDay
  | some sd =>
    match endDay with
    | none => some .ErrorInvalidEndDay
    | some ed =>
      if !isAllDay && !(match startTime with | .tvalid _ => true | _ => false) then
        some .ErrorInvalidStartTime
      else if !isAllDay && !(match endTime with | .tvalid _ => true | _ => false) then
        some .ErrorInvalidEndTime
      else if dateLtB ed sd then
        some .ErrorStartDayIsAfterEndDay
      else if sd == ed && timeValGtB startTime endTime then
        some .ErrorStartTimeIsAfterEndTime
      else if !(KnownZones.contains zone) then
        some .ErrorInvalidZone
      else
        none

/-- `ValidStatus` returns true if the status is one of the pre-defined
statuses of the library. -/
def ValidStatus (s : Int) : Bool :=
  s == StatusActive || s == StatusCanceled || s == StatusAbandoned || s == StatusRemoved

/-- `ValidRepeat` (part_008): checks `event.Repeat` when `event.IsRepeating`
is set.  The stop date may equal the start day (the stop date is inclusive)
but must not precede it nor exceed start + 1 day + `MaxRepeatDuration`. -/
def ValidRepeat (e : Event) : Option Err :=
  if e.isRepeating then
    match e.startDay with
    | none => some .ErrorInvalidStartDay
    | some startDay =>
      match e.repeat with
      | none => some .ErrorMissingRepeatPattern
      | some r =>
        if r.repeatOccurrences > MaxRepeatOccurrence then
          some .ErrorRepeatOccurrenceTooLarge
        else if r.repeatOccurrences == 1 || r.repeatOccurrences < 0 then
          some .ErrorRepeatOccurrenceTooSmall
        else if r.repeatStopDate == none && r.repeatOccurrences == 0 then
          some .ErrorMissingEndOfRepeat
        else
          match r.repeatStopDate with
          | some stop =>
            if timeLtB stop (midnight startDay) then
              some .ErrorRepeatStopDateIsBeforeStart
            else if timeLtB (timeAddDays (1 + MaxRepeatDurationDays) (midnight startDay)) stop then
              some .ErrorRepeatStopDateTooLarge
            else
              if r.repeatType == RepeatTypeWeekly && r.dayOfWeek == 0 then
                some .ErrorInvalidDayOfWeek
              else if r.repeatType == RepeatTypeDaily || r.repeatType == RepeatTypeWeekly
                  || r.repeatType == RepeatTypeMonthly || r.repeatType == RepeatTypeYearly then
                none
              else
                some .ErrorInvalidRepeatType
          | none =>
            if r.repeatType == RepeatTypeWeekly && r.dayOfWeek == 0 then
              some .ErrorInvalidDayOfWeek
            else if r.repeatType == RepeatTypeDaily || r.repeatType == RepeatTypeWeekly
                || r.repeatType == RepeatTypeMonthly || r.repeatType == RepeatTypeYearly then
              none
            else
              some .ErrorInvalidRepeatType
  else
    none

/-- `Validate` (part_008): `ValidTimes`, then `ValidRepeat`, then
`ValidStatus`. -/
def Validate (e : Event) : Option Err :=
  match ValidTimes e.startDay e.startTime e.endDay e.endTime e.zone e.isAllDay with
  | some err => some err
  | none =>
    match ValidRepeat e with
    | some err => some err
    | none => if ValidStatus e.status then none else some .ErrorInvalidStatus

/-- `ValidateInvite` (part_008): status must be Pending, Confirmed or
Declined; the permission bit-set must be non-empty and respect the
implication chain. -/
def ValidateInvite (a : Invite) : Option Err :=
  if !(a.status == InviteStatusPending || a.status == InviteStatusConfirmed
      || a.status == InviteStatusDeclined) then
    some .ErrorInvalidInviteStatus
  else if a.permission == 0 then
    some .ErrorMissingInvitePermission
  else if !(hasFlag a.permission PermissionRead)
      && (hasFlag a.permission PermissionDelete || hasFlag a.permission PermissionCancel
        || hasFlag a.permission PermissionInvite || hasFlag a.permission PermissionModify) then
    some .ErrorIncompatibleInvitePermission
  else if !(hasFlag a.permission PermissionInvite) && hasFlag a.permission PermissionModify then
    some .ErrorIncompatibleInvitePermission
  else if !(hasFlag a.permission PermissionModify)
      && (hasFlag a.permission PermissionDelete || hasFlag a.permission PermissionCancel) then
    some .ErrorIncompatibleInvitePermission
  else if !(hasFlag a.permission PermissionCancel) && hasFlag a.permission PermissionDelete then
    some .ErrorIncompatibleInvitePermission
  else
    none

/-! ## Recurrence generation (`GenerateRepeatEvents`, part_009)

The Go loops have no built-in bound, and one of them can in fact run
forever (see claim C2), so each loop takes a fuel argument; a `none`
result means the loop did not finish within the given fuel.  Every result
of the form `some r` is the exact value the Go function returns. -/

/-- `dayOfWeekFromWeekday` (part_008): Go `time.Weekday` (0 = Sunday .. 6 =
Saturday) to the `DayOfWeek` bitmask bit, defaulting to Sunday. -/
def dayOfWeekFromWeekday (w : Nat) : Nat :=
  match w with
  | 0 => DayOfWeekSunday
  | 1 => DayOfWeekMonday
  | 2 => DayOfWeekTuesday
  | 3 => DayOfWeekWednesday
  | 4 => DayOfWeekThursday
  | 5 => DayOfWeekFriday
  | 6 => DayOfWeekSaturday
  | _ => DayOfWeekSunday

/-- The fixed-count loop for Daily/Monthly/Yearly: append stepped copies of
the template until `RepeatOccurrences` events exist.  The step `(dy,dm,dd)`
comes from the cadence.  Note the date is advanced before the copy is
recorded, so the first appended copy is one step past the template. -/
def countLoop (e : Event) (dy dm dd occ : Int) :
    Nat → Date → Date → List Event → Option (List Event)
  | 0, _, _, _ => none
  | fuel + 1, nextStart, nextEnd, events =>
    if (events.length : Int) < occ then
      let ns := addDate dy dm dd nextStart
      let ne := addDate dy dm dd nextEnd
      countLoop e dy dm dd occ fuel ns ne
        (events ++ [{ e with startDay := some ns, endDay := some ne }])
    else
      some events

/-- The stop-date loop for Daily/Monthly/Yearly: append stepped copies while
the candidate start is at or before the stop date, erroring when more than
`MaxRepeatOccurrence` events have accumulated.  As in the Go code, the date
is advanced before the copy is recorded. -/
def stopLoop (e : Event) (dy dm dd : Int) (stop : Time) :
    Nat → Date → Date → List Event → Option (Except Err (List Event))
  | 0, _, _, _ => none
  | fuel + 1, nextStart, nextEnd, events =>
    if !(timeLtB stop (midnight nextStart)) then
      if (events.length : Int) > MaxRepeatOccurrence then
        some (.error .ErrorTooManyRepeatOccurrences)
      else
        let ns := addDate dy dm dd nextStart
        let ne := addDate dy dm dd nextEnd
        stopLoop e dy dm dd stop fuel ns ne
          (events ++ [{ e with startDay := some ns, endDay := some ne }])
    else
      some (.ok events)

/-- The fixed-count weekly loop: walk one day at a time, recording the
candidate day itself (before stepping) whenever its weekday is in the
day-of-week mask, until `RepeatOccurrences` events exist. -/
def weekCountLoop (e : Event) (mask : Nat) (occ : Int) :
    Nat → Date → Date → List Event → Option (List Event)
  | 0, _, _, _ => none
  | fuel + 1, nextStart, nextEnd, events =>
    if (events.length : Int) < occ then
      if !(hasFlag mask (dayOfWeekFromWeekday (weekday nextStart))) then
        weekCountLoop e mask occ fuel (addDate 0 0 1 nextStart) (addDate 0 0 1 nextEnd) events
      else
        weekCountLoop e mask occ fuel (addDate 0 0 1 nextStart) (addDate 0 0 1 nextEnd)
          (events ++ [{ e with startDay := some nextStart, endDay := some nextEnd }])
    else
      some events

/-- The stop-date weekly loop: same day-walk while the candidate day is at
or before the stop date, with the `MaxRepeatOccurrence` safety check. -/
def weekStopLoop (e : Event) (mask : Nat) (stop : Time) :
    Nat → Date → Date → List Event → Option (Except Err (List Event))
  | 0, _, _, _ => none
  | fuel + 1, nextStart, nextEnd, events =>
    if !(timeLtB stop (midnight nextStart)) then
      if (events.length : Int) > MaxRepeatOccurrence then
        some (.error .ErrorTooManyRepeatOccurrences)
      else
        if !(hasFlag mask (dayOfWeekFromWeekday (weekday nextStart))) then
          weekStopLoop e mask stop fuel (addDate 0 0 1 nextStart) (addDate 0 0 1 nextEnd) events
        else
          weekStopLoop e mask stop fuel (addDate 0 0 1 nextStart) (addDate 0 0 1 nextEnd)
            (events ++ [{ e with startDay := some nextStart, endDay := some nextEnd }])
    else
      some (.ok events)

/-- Final check of `GenerateRepeatEvents`: an empty list becomes
`ErrorEmptyRepeatingEvents`, otherwise the list is returned. -/
def finishRepeat (events : List Event) : Except Err (List Event) :=
  if events.isEmpty then .error .ErrorEmptyRepeatingEvents else .ok events

/-- `GenerateRepeatEvents` (part_009).  Fail if the event is not repeating,
if its start or end day does not parse, or if `Validate` rejects it; then
expand by cadence: Daily/Monthly/Yearly seed the result with the template
itself and step by one day/month/year, Weekly walks day by day filtering by
the day-of-week mask (the template is recorded only if its own weekday is
in the mask); fixed-count and stop-date termination as in the loops above;
an empty result is an error. -/
def GenerateRepeatEvents (fuel : Nat) (e : Event) : Option (Except Err (List Event)) :=
  if !e.isRepeating then some (.error .ErrorNotRepeatingEvent) else
  match e.startDay with
  | none => some (.error .ErrorInvalidStartDay)
  | some startDay =>
    match e.endDay with
    | none => some (.error .ErrorInvalidEndDay)
    | some endDay =>
      match Validate e with
      | some err => some (.error err)
      | none =>
        match e.repeat with
        | none => some (.error .ErrorMissingRepeatPattern)
        | some r =>
          if r.repeatType == RepeatTypeDaily || r.repeatType == RepeatTypeMonthly
              || r.repeatType == RepeatTypeYearly then
            if r.repeatOccurrences ≥ 2 then
              match countLoop e (if r.repeatType == RepeatTypeYearly then 1 else 0)
                  (if r.repeatType == RepeatTypeMonthly then 1 else 0)
                  (if r.repeatType == RepeatTypeDaily then 1 else 0)
                  r.repeatOccurrences fuel startDay endDay [e] with
              | none => none
              | some evs => some (finishRepeat evs)
            else
              match r.repeatStopDate with
              | some stop =>
                match stopLoop e (if r.repeatType == RepeatTypeYearly then 1 else 0)
                    (if r.repeatType == RepeatTypeMonthly then 1 else 0)
                    (if r.repeatType == RepeatTypeDaily then 1 else 0)
                    stop fuel startDay endDay [e] with
                | none => none
                | some (.error err) => some (.error err)
                | some (.ok evs) => some (finishRepeat evs)
              | none => some (finishRepeat [e])
          else if r.repeatType == RepeatTypeWeekly then
            if r.repeatOccurrences ≥ 2 then
              match weekCountLoop e r.dayOfWeek r.repeatOccurrences fuel startDay endDay [] with
              | none => none
              | some evs => some (finishRepeat evs)
            else
              match r.repeatStopDate with
              | some stop =>
                match weekStopLoop e r.dayOfWeek stop fuel startDay endDay [] with
                | none => none
                | some (.error err) => some (.error err)
                | some (.ok evs) => some (finishRepeat evs)
              | none => some (finishRepeat [])
          else
            some (finishRepeat [])

/-! ## Query matching (`Query.Matches`, part_008) -/

/-- `strings.Contains` on the character lists of the two strings. -/
def strContainsAux : List Char → List Char → Bool
  | _, [] => true
  | [], _ :: _ => false
  | c :: rest, p :: ps => (List.isPrefixOf (p :: ps) (c :: rest)) || strContainsAux rest (p :: ps)

/-- `strings.Contains s sub`. -/
def strContains (s sub : String) : Bool :=
  strContainsAux s.data sub.data

/-- The query object (part_008 `type Query struct`); absent lists impose no
constraint. -/
structure Query where
  start : Option Time := none
  «end» : Option Time := none
  eventIds : List Int := []
  parentIds : List Int := []
  userIds : List Int := []
  eventTypes : List Int := []
  sourceIds : List Int := []
  statuses : List Int := []
  text : List String := []
deriving Repr

/-- Models the Go string comparison `q.Start.Format(DateOnly) > event.EndDay`
for a stored day field.  A stored field that does not parse (`none`) never
arises from events admitted by `Create` and is treated as imposing no
rejection. -/
def dayGtFmt (q : Date) (d : Option Date) : Bool :=
  match d with
  | some dd => dateLtB dd q
  | none => false

/-- Models `q.End.Format(DateOnly) < event.StartDay` likewise. -/
def dayLtFmt (q : Date) (d : Option Date) : Bool :=
  match d with
  | some dd => dateLtB q dd
  | none => false

/-- Models the concatenated comparison
`startDay+startTime > event.EndDay+event.EndTime` on well-formed fields
(both strings are fixed-width, so the concatenation compares the day first
and the minute on equal days). -/
def dayTimeGtFmt (q : Date) (qmin : Int) (d : Option Date) (tv : TimeVal) : Bool :=
  match d, tv with
  | some dd, .tvalid m => dateLtB dd q || (dd == q && (m : Int) < qmin)
  | _, _ => false

/-- Models `endDay+endTime < event.StartDay+event.StartTime` likewise. -/
def dayTimeLtFmt (q : Date) (qmin : Int) (d : Option Date) (tv : TimeVal) : Bool :=
  match d, tv with
  | some dd, .tvalid m => dateLtB q dd || (q == dd && qmin < (m : Int)) 
  | _, _ => false

/-- `Query.Matches` (part_008): an absent event never matches; an optional
inclusive time window is checked against the event's end (for the query
start) and start (for the query end); the id, parent-id, type, source-id,
status and text filters are OR-within-list and AND-across-lists. -/
def Query.Matches (q : Query) (event : Option Event) : Bool :=
  match event with
  | none => false
  | some ev =>
    (match q.start with
     | none => true
     | some t =>
       !(dayGtFmt t.day ev.endDay)
       && !((ev.endTime != TimeVal.tempty)
            && dayTimeGtFmt t.day (timeMinutes t) ev.endDay ev.endTime))
    && (match q.«end» with
     | none => true
     | some t =>
       !(dayLtFmt t.day ev.startDay)
       && !((ev.startTime != TimeVal.tempty)
            && dayTimeLtFmt t.day (timeMinutes t) ev.startDay ev.startTime))
    && (q.eventIds.isEmpty || q.eventIds.any (fun i => ev.id == i))
    && (q.parentIds.isEmpty || q.parentIds.any (fun i => ev.parentId == some i))
    && (q.eventTypes.isEmpty || q.eventTypes.any (fun i => ev.eventType == i))
    && (q.sourceIds.isEmpty || q.sourceIds.any (fun i => ev.sourceId == some i))
    && (q.statuses.isEmpty || q.statuses.any (fun s => ev.status == s))
    && (q.text.isEmpty || q.text.any (fun s =>
          strContains ev.title s
          || (match ev.description with | some d => strContains d s | none => false)))

/-! ## The in-memory data store (`data_store.go`) -/

/-- `InMemoryDataStore`: events, invites, and the id counter. -/
structure InMemoryDataStore where
  events : List Event := []
  invites : List Invite := []
  curId : Int := 0
deriving Repr

/-- `InMemoryDataStore.Get`: the first stored event with the given id, or
absent. -/
def InMemoryDataStore.Get (d : InMemoryDataStore) (eventId : Int) : Option Event :=
  d.events.find? (fun ev => ev.id == eventId)

/-- `InMemoryDataStore.Query`: all stored events matching the query, in
storage order (the in-memory query never fails). -/
def InMemoryDataStore.Query (d : InMemoryDataStore) (q : Query) : List Event :=
  d.events.filter (fun ev => q.Matches (some ev))

/-- `InMemoryDataStore.AddInvite`: stamp the invite with the current time,
validate it and append it.  `now` stands for `time.Now()`. -/
def InMemoryDataStore.AddInvite (d : InMemoryDataStore) (now : Int) (a : Invite) :
    InMemoryDataStore × Except Err Invite :=
  let a := { a with created := now, updated := now }
  match ValidateInvite a with
  | some err => (d, .error err)
  | none => ({ d with invites := d.invites ++ [a] }, .ok a)

/-- `InMemoryDataStore.Create`: validate the event, assign the next id and
the timestamps, make a repeating event without a parent its own parent,
record the owner's confirmed invitation with the full owner permission set,
and append the event.  `now` stands for `time.Now()`. -/
def InMemoryDataStore.Create (d : InMemoryDataStore) (now : Int) (event : Event) :
    InMemoryDataStore × Except Err Event :=
  match Validate event with
  | some err => (d, .error err)
  | none =>
    let newId := d.curId + 1
    let d := { d with curId := newId }
    let event := { event with id := newId, created := now, updated := now }
    let event :=
      if event.isRepeating && event.parentId == none then
        { event with parentId := some newId }
      else event
    let ownerInvite : Invite := {
      eventId := event.id
      userId := event.ownerId
      status := InviteStatusConfirmed
      permission := PermissionOwner
    }
    match d.AddInvite now ownerInvite with
    | (d, .error err) => (d, .error err)
    | (d, .ok _) => ({ d with events := d.events ++ [event] }, .ok event)

/-! ## Edit cascading (`calendar.go`) -/

-- RepeatEditType constants.
def RepeatEditTypeThis : Int := 0
def RepeatEditTypeAll : Int := 1
def RepeatEditTypeThisAndAfter : Int := 2

/-- `Event.Start` via `parseDayTime`: the instant of the event's start day
and start time (midnight for an empty time); `none` on a field that does
not parse. -/
def parseDayTime (day : Option Date) (hourMin : TimeVal) : Option Time :=
  match day with
  | none => none
  | some dd =>
    match hourMin with
    | .tempty => some (midnight dd)
    | .tvalid m => some ⟨dd, (m : Int) * nsPerMinute⟩
    | .tinvalid => none

def Event.Start (e : Event) : Option Time :=
  parseDayTime e.startDay e.startTime

/-- `getAllRepeatingEvents`: the event itself when it has no parent id,
otherwise every stored event sharing its parent id. -/
def getAllRepeatingEvents (d : InMemoryDataStore) (e : Event) : List Event :=
  match e.parentId with
  | none => [e]
  | some pid => d.Query { parentIds := [pid] }

/-- `getAllRepeatingEventsThisAndAfter`: the event itself when it has no
parent id, otherwise the stored events sharing its parent id restricted by
the query's start bound at this event's start instant; `none` when the
event's own start fields do not parse (the Go function returns the parse
error). -/
def getAllRepeatingEventsThisAndAfter (d : InMemoryDataStore) (e : Event) :
    Option (List Event) :=
  match e.parentId with
  | none => some [e]
  | some pid =>
    match e.Start with
    | none => none
    | some start => some (d.Query { start := some start, parentIds := [pid] })

/-- `applyEditBasedOnRepeatEditType`, abstracted over the mutation: the
result is the ordered list of event ids the caller-supplied mutation `f`
is applied to (the Go code applies `f` to exactly these ids in this order
when every application succeeds), or the error returned before any
mutation.  When the resolution helper fails, the Go code ignores the error
and iterates over the nil slice, returning success without mutating;
modelled by the empty id list. -/
def applyEditBasedOnRepeatEditType (d : InMemoryDataStore) (editType : Int)
    (eventId : Int) : Except Err (List Int) :=
  if editType == RepeatEditTypeThis then
    .ok [eventId]
  else if editType == RepeatEditTypeAll then
    match d.Get eventId with
    | none => .error .ErrorEventNotFound
    | some e => .ok ((getAllRepeatingEvents d e).map Event.id)
  else if editType == RepeatEditTypeThisAndAfter then
    match d.Get eventId with
    | none => .error .ErrorEventNotFound
    | some e =>
      match getAllRepeatingEventsThisAndAfter d e with
      | none => .ok []
      | some evs => .ok (evs.map Event.id)
  else
    .error .ErrorInvalidRepeatEditType

/-! ## Date arithmetic lemmas -/

theorem daysInMonth_pos (y : Int) (m : Nat) : 1 ≤ daysInMonth y m := by
  unfold daysInMonth; split_ifs <;> omega

theorem daysInMonth_le (y : Int) (m : Nat) : daysInMonth y m ≤ 31 := by
  unfold daysInMonth; split_ifs <;> omega

theorem daysInMonth_ge (y : Int) (m : Nat) : 28 ≤ daysInMonth y m := by
  unfold daysInMonth; split_ifs <;> omega

theorem dayCarry_self (fuel : Nat) (y : Int) (m : Nat) (d : Int)
    (h1 : 1 ≤ d) (h2 : d ≤ (daysInMonth y m : Int)) :
    dayCarry (fuel + 1) y m d = ⟨y, m, d.toNat⟩ := by
  unfold dayCarry
  rw [if_neg (by omega), if_pos h2]

theorem dayCarry_once (fuel : Nat) (y : Int) (m : Nat) (d : Int)
    (h1 : (daysInMonth y m : Int) < d)
    (h2 : d - (daysInMonth y m : Int) ≤
      (daysInMonth (if m = 12 then y + 1 else y) (if m = 12 then 1 else m + 1) : Int)) :
    dayCarry (fuel + 2) y m d =
      ⟨if m = 12 then y + 1 else y, if m = 12 then 1 else m + 1,
        (d - (daysInMonth y m : Int)).toNat⟩ := by
  have hp := daysInMonth_pos y m
  show dayCarry (fuel + 1 + 1) y m d = _
  unfold dayCarry
  rw [if_neg (by omega), if_neg (by omega)]
  exact dayCarry_self fuel _ _ _ (by omega) h2
theorem addDate_norm0 (dy dd : Int) (y : Int) (m d : Nat) (hm1 : 1 ≤ m) (hm2 : m ≤ 12) :
    addDate dy 0 dd ⟨y, m, d⟩ = dayCarry 1000 (y + dy) m ((d : Int) + dd) := by
  unfold addDate
  simp only
  rw [Int.fdiv_eq_ediv _ (by norm_num), Int.fmod_eq_emod _ (by norm_num)]
  have h1 : ((m : Int) + 0 - 1) / 12 = 0 := by omega
  have h2 : ((m : Int) + 0 - 1) % 12 = (m : Int) - 1 := by omega
  rw [h1, h2]
  congr 1 <;> omega

theorem addDate_norm1 (dy dd : Int) (y : Int) (m d : Nat) (hm1 : 1 ≤ m) (hm2 : m ≤ 12) :
    addDate dy 1 dd ⟨y, m, d⟩ =
      dayCarry 1000 (y + dy + (if m = 12 then 1 else 0)) (if m = 12 then 1 else m + 1)
        ((d : Int) + dd) := by
  unfold addDate
  simp only
  rw [Int.fdiv_eq_ediv _ (by norm_num), Int.fmod_eq_emod _ (by norm_num)]
  by_cases h12 : m = 12
  · subst h12
    norm_num
  · have h1 : ((m : Int) + 1 - 1) / 12 = 0 := by omega
    have h2 : ((m : Int) + 1 - 1) % 12 = (m : Int) := by omega
    rw [h1, h2, if_neg h12, if_neg h12]
    congr 1
theorem daysInMonth_12 (y : Int) : daysInMonth y 12 = 31 := by
  unfold daysInMonth; norm_num

theorem addDate_day_eq (y : Int) (m d : Nat) (hm1 : 1 ≤ m) (hm2 : m ≤ 12)
    (hd1 : 1 ≤ d) (hd2 : d ≤ daysInMonth y m) :
    addDate 0 0 1 ⟨y, m, d⟩ =
      if d + 1 ≤ daysInMonth y m then ⟨y, m, d + 1⟩
      else if m = 12 then ⟨y + 1, 1, 1⟩ else ⟨y, m + 1, 1⟩ := by
  rw [addDate_norm0 0 1 y m d hm1 hm2]
  simp only [Int.add_zero]
  by_cases hin : d + 1 ≤ daysInMonth y m
  · rw [show (1000 : Nat) = 999 + 1 from rfl,
      dayCarry_self 999 y m _ (by omega) (by omega), if_pos hin]
    simp only [Date.mk.injEq, true_and]
    omega
  · have hone : ((d : Int) + 1) - (daysInMonth y m : Int) ≤
        (daysInMonth (if m = 12 then y + 1 else y) (if m = 12 then 1 else m + 1) : Int) := by
      have := daysInMonth_pos (if m = 12 then y + 1 else y) (if m = 12 then 1 else m + 1)
      omega
    rw [show (1000 : Nat) = 998 + 2 from rfl,
      dayCarry_once 998 y m _ (by omega) hone, if_neg hin]
    by_cases h12 : m = 12
    · subst h12
      rw [if_pos rfl, if_pos rfl, if_pos rfl]
      rw [daysInMonth_12] at hd2 hin ⊢
      simp only [Date.mk.injEq, true_and]
      omega
    · rw [if_neg h12, if_neg h12, if_neg h12]
      simp only [Date.mk.injEq, true_and]
      omega
theorem addDate_month_eq (y : Int) (m d : Nat) (hm1 : 1 ≤ m) (hm2 : m ≤ 12)
    (hd1 : 1 ≤ d) (hd2 : d ≤ daysInMonth y m) :
    addDate 0 1 0 ⟨y, m, d⟩ =
      (if m = 12 then
        (if d ≤ daysInMonth (y + 1) 1 then (⟨y + 1, 1, d⟩ : Date)
         else ⟨y + 1, 2, d - daysInMonth (y + 1) 1⟩)
      else
        (if d ≤ daysInMonth y (m + 1) then (⟨y, m + 1, d⟩ : Date)
         else ⟨y, m + 2, d - daysInMonth y (m + 1)⟩)) := by
  have hle := daysInMonth_le y m
  rw [addDate_norm1 0 0 y m d hm1 hm2]
  simp only [Int.add_zero, Int.zero_add]
  by_cases h12 : m = 12
  · subst h12
    rw [if_pos rfl, if_pos rfl, if_pos rfl]
    by_cases hin : d ≤ daysInMonth (y + 1) 1
    · rw [show (1000 : Nat) = 999 + 1 from rfl,
        dayCarry_self 999 (y + 1) 1 _ (by omega) (by omega), if_pos hin]
      simp
    · have h31 : daysInMonth (y + 1) 1 = 31 := by unfold daysInMonth; norm_num
      omega
  · rw [if_neg h12, if_neg h12, if_neg h12]
    simp only [Int.add_zero]
    by_cases hin : d ≤ daysInMonth y (m + 1)
    · rw [show (1000 : Nat) = 999 + 1 from rfl,
        dayCarry_self 999 y (m + 1) _ (by omega) (by omega), if_pos hin]
      simp
    · have hm11 : m + 1 ≠ 12 := by
        intro hc
        have : daysInMonth y (m + 1) = 31 := by rw [hc]; exact daysInMonth_12 y
        omega
      have hone : ((d : Int)) - (daysInMonth y (m + 1) : Int) ≤
          (daysInMonth (if m + 1 = 12 then y + 1 else y) (if m + 1 = 12 then 1 else m + 1 + 1) : Int) := by
        have := daysInMonth_ge (if m + 1 = 12 then y + 1 else y) (if m + 1 = 12 then 1 else m + 1 + 1)
        have := daysInMonth_ge y (m + 1)
        omega
      rw [show (1000 : Nat) = 998 + 2 from rfl,
        dayCarry_once 998 y (m + 1) _ (by omega) hone, if_neg hin,
        if_neg hm11, if_neg hm11]
      simp only [Date.mk.injEq, true_and]
      omega

theorem addDate_year_eq (y : Int) (m d : Nat) (hm1 : 1 ≤ m) (hm2 : m ≤ 12)
    (hd1 : 1 ≤ d) (hd2 : d ≤ daysInMonth y m) :
    addDate 1 0 0 ⟨y, m, d⟩ =
      (if d ≤ daysInMonth (y + 1) m then (⟨y + 1, m, d⟩ : Date)
       else ⟨y + 1, m + 1, d - daysInMonth (y + 1) m⟩) := by
  have hle := daysInMonth_le y m
  rw [addDate_norm0 1 0 y m d hm1 hm2]
  simp only [Int.add_zero]
  by_cases hin : d ≤ daysInMonth (y + 1) m
  · rw [show (1000 : Nat) = 999 + 1 from rfl,
      dayCarry_self 999 (y + 1) m _ (by omega) (by omega), if_pos hin]
    simp
  · have hm11 : m ≠ 12 := by
      intro hc
      have : daysInMonth (y + 1) m = 31 := by rw [hc]; exact daysInMonth_12 (y + 1)
      omega
    have hone : ((d : Int)) - (daysInMonth (y + 1) m : Int) ≤
        (daysInMonth (if m = 12 then y + 1 + 1 else y + 1) (if m = 12 then 1 else m + 1) : Int) := by
      have := daysInMonth_ge (if m = 12 then y + 1 + 1 else y + 1) (if m = 12 then 1 else m + 1)
      have := daysInMonth_ge (y + 1) m
      omega
    rw [show (1000 : Nat) = 998 + 2 from rfl,
      dayCarry_once 998 (y + 1) m _ (by omega) hone, if_neg hin,
      if_neg hm11, if_neg hm11]
    simp only [Date.mk.injEq, true_and]
    omega
theorem daysInMonth_1 (y : Int) : daysInMonth y 1 = 31 := by
  unfold daysInMonth; norm_num

theorem addDate_day_step (t : Date) (h : DateOK t) :
    DateOK (addDate 0 0 1 t) ∧ dateLtB t (addDate 0 0 1 t) = true := by
  obtain ⟨y, m, d⟩ := t
  obtain ⟨hm1, hm2, hd1, hd2⟩ := h
  dsimp only at hm1 hm2 hd1 hd2
  rw [addDate_day_eq y m d hm1 hm2 hd1 hd2]
  by_cases hin : d + 1 ≤ daysInMonth y m
  · rw [if_pos hin]
    simp [DateOK, dateLtB]
    omega
  · rw [if_neg hin]
    by_cases h12 : m = 12
    · rw [if_pos h12]
      have g1 := daysInMonth_1 (y + 1)
      simp [DateOK, dateLtB]
      omega
    · rw [if_neg h12]
      have g1 := daysInMonth_ge y (m + 1)
      simp [DateOK, dateLtB]
      omega

theorem addDate_month_step (t : Date) (h : DateOK t) :
    DateOK (addDate 0 1 0 t) ∧ dateLtB t (addDate 0 1 0 t) = true := by
  obtain ⟨y, m, d⟩ := t
  obtain ⟨hm1, hm2, hd1, hd2⟩ := h
  dsimp only at hm1 hm2 hd1 hd2
  rw [addDate_month_eq y m d hm1 hm2 hd1 hd2]
  have lm := daysInMonth_le y m
  by_cases h12 : m = 12
  · subst h12
    rw [if_pos rfl]
    have h1 : daysInMonth (y + 1) 1 = 31 := daysInMonth_1 (y + 1)
    have e12 := daysInMonth_12 y
    rw [if_pos (by omega)]
    simp [DateOK, dateLtB]
    omega
  · rw [if_neg h12]
    have g2 := daysInMonth_ge y (m + 1)
    have g3 := daysInMonth_ge y (m + 2)
    by_cases hin : d ≤ daysInMonth y (m + 1)
    · rw [if_pos hin]
      simp [DateOK, dateLtB]
      omega
    · rw [if_neg hin]
      have hne : m + 1 ≠ 12 := by
        intro hc
        rw [hc, daysInMonth_12 y] at hin
        omega
      simp [DateOK, dateLtB]
      omega

theorem addDate_year_step (t : Date) (h : DateOK t) :
    DateOK (addDate 1 0 0 t) ∧ dateLtB t (addDate 1 0 0 t) = true := by
  obtain ⟨y, m, d⟩ := t
  obtain ⟨hm1, hm2, hd1, hd2⟩ := h
  dsimp only at hm1 hm2 hd1 hd2
  rw [addDate_year_eq y m d hm1 hm2 hd1 hd2]
  have lm := daysInMonth_le y m
  have g2 := daysInMonth_ge (y + 1) m
  have g3 := daysInMonth_ge (y + 1) (m + 1)
  by_cases hin : d ≤ daysInMonth (y + 1) m
  · rw [if_pos hin]
    simp [DateOK, dateLtB]
    omega
  · rw [if_neg hin]
    have hne : m ≠ 12 := by
      intro hc
      rw [hc, daysInMonth_12 (y + 1)] at hin
      omega
    simp [DateOK, dateLtB]
    omega

/-! ## Order and loop invariant lemmas -/

theorem dateLtB_trans {a b c : Date} (h1 : dateLtB a b = true) (h2 : dateLtB b c = true) :
    dateLtB a c = true := by
  simp only [dateLtB, Bool.or_eq_true, Bool.and_eq_true, decide_eq_true_eq, beq_iff_eq] at *
  omega

theorem dateLeB_lt_trans {a b c : Date} (h1 : dateLeB a b = true) (h2 : dateLtB b c = true) :
    dateLtB a c = true := by
  obtain ⟨ay, am, ad⟩ := a
  obtain ⟨by_, bm, bd⟩ := b
  obtain ⟨cy, cm, cd⟩ := c
  simp only [dateLeB, dateLtB, Bool.or_eq_true, Bool.and_eq_true, decide_eq_true_eq,
    beq_iff_eq, Date.mk.injEq] at *
  omega

theorem dateLtB_le {a b : Date} (h : dateLtB a b = true) : dateLeB a b = true := by
  simp only [dateLeB, Bool.or_eq_true]
  exact Or.inl h

theorem dateLeB_refl (a : Date) : dateLeB a a = true := by
  simp [dateLeB]

/-- Strict start-date order on events (both start days parse and are in
chronological order). -/
def startLtB (a b : Event) : Bool :=
  match a.startDay, b.startDay with
  | some da, some db => dateLtB da db
  | _, _ => false
theorem countLoop_sorted (e : Event) (dy dm dd occ : Int)
    (hstep : ∀ u, DateOK u → DateOK (addDate dy dm dd u) ∧ dateLtB u (addDate dy dm dd u) = true) :
    ∀ fuel ns ne acc evs, DateOK ns →
      countLoop e dy dm dd occ fuel ns ne acc = some evs →
      (∀ a ∈ acc, ∃ da, a.startDay = some da ∧ dateLeB da ns = true) →
      acc.Pairwise (fun a b => startLtB a b = true) →
      (∃ rest, evs = acc ++ rest) ∧ evs.Pairwise (fun a b => startLtB a b = true) := by
  intro fuel
  induction fuel with
  | zero =>
    intro ns ne acc evs hok hrun hacc hpair
    simp [countLoop] at hrun
  | succ fuel ih =>
    intro ns ne acc evs hok hrun hacc hpair
    rw [countLoop] at hrun
    by_cases hlen : (acc.length : Int) < occ
    · rw [if_pos hlen] at hrun
      have hok' := (hstep ns hok).1
      have hlt := (hstep ns hok).2
      set ns' := addDate dy dm dd ns with hns'
      set ev' : Event := { e with startDay := some ns', endDay := some (addDate dy dm dd ne) }
        with hev'
      have hev'start : ev'.startDay = some ns' := rfl
      have hacc' : ∀ a ∈ acc ++ [ev'], ∃ da, a.startDay = some da ∧ dateLeB da ns' = true := by
        intro a ha
        rcases List.mem_append.mp ha with ha | ha
        · obtain ⟨da, hda, hle⟩ := hacc a ha
          exact ⟨da, hda, dateLtB_le (dateLeB_lt_trans hle hlt)⟩
        · rw [List.mem_singleton.mp ha]
          exact ⟨ns', hev'start, dateLeB_refl ns'⟩
      have hpair' : (acc ++ [ev']).Pairwise (fun a b => startLtB a b = true) := by
        rw [List.pairwise_append]
        refine ⟨hpair, List.pairwise_singleton _ _, ?_⟩
        intro a ha b hb
        rw [List.mem_singleton.mp hb]
        obtain ⟨da, hda, hle⟩ := hacc a ha
        simp only [startLtB, hda, hev'start]
        exact dateLeB_lt_trans hle hlt
      obtain ⟨⟨rest, hrest⟩, hpairout⟩ := ih ns' _ _ _ hok' hrun hacc' hpair'
      exact ⟨⟨ev' :: rest, by rw [hrest, List.append_assoc]; rfl⟩, hpairout⟩
    · rw [if_neg hlen] at hrun
      obtain rfl : acc = evs := by injection hrun
      exact ⟨⟨[], (List.append_nil acc).symm⟩, hpair⟩
theorem stopLoop_sorted (e : Event) (dy dm dd : Int) (stop : Time)
    (hstep : ∀ u, DateOK u → DateOK (addDate dy dm dd u) ∧ dateLtB u (addDate dy dm dd u) = true) :
    ∀ fuel ns ne acc evs, DateOK ns →
      stopLoop e dy dm dd stop fuel ns ne acc = some (.ok evs) →
      (∀ a ∈ acc, ∃ da, a.startDay = some da ∧ dateLeB da ns = true) →
      acc.Pairwise (fun a b => startLtB a b = true) →
      (∃ rest, evs = acc ++ rest) ∧ evs.Pairwise (fun a b => startLtB a b = true) := by
  intro fuel
  induction fuel with
  | zero =>
    intro ns ne acc evs hok hrun hacc hpair
    simp [stopLoop] at hrun
  | succ fuel ih =>
    intro ns ne acc evs hok hrun hacc hpair
    rw [stopLoop] at hrun
    cases hcond : timeLtB stop (midnight ns) with
    | true =>
      rw [hcond] at hrun
      simp only [Bool.not_true, Bool.false_eq_true, if_false] at hrun
      obtain rfl : acc = evs := by
        injection hrun with h
        injection h
      exact ⟨⟨[], (List.append_nil acc).symm⟩, hpair⟩
    | false =>
      rw [hcond] at hrun
      simp only [Bool.not_false, if_true] at hrun
      by_cases hlen : (acc.length : Int) > MaxRepeatOccurrence
      · rw [if_pos hlen] at hrun
        simp at hrun
      · rw [if_neg hlen] at hrun
        have hok' := (hstep ns hok).1
        have hlt := (hstep ns hok).2
        set ns' := addDate dy dm dd ns with hns'
        set ev' : Event := { e with startDay := some ns', endDay := some (addDate dy dm dd ne) }
          with hev'
        have hev'start : ev'.startDay = some ns' := rfl
        have hacc' : ∀ a ∈ acc ++ [ev'], ∃ da, a.startDay = some da ∧ dateLeB da ns' = true := by
          intro a ha
          rcases List.mem_append.mp ha with ha | ha
          · obtain ⟨da, hda, hle⟩ := hacc a ha
            exact ⟨da, hda, dateLtB_le (dateLeB_lt_trans hle hlt)⟩
          · rw [List.mem_singleton.mp ha]
            exact ⟨ns', hev'start, dateLeB_refl ns'⟩
        have hpair' : (acc ++ [ev']).Pairwise (fun a b => startLtB a b = true) := by
          rw [List.pairwise_append]
          refine ⟨hpair, List.pairwise_singleton _ _, ?_⟩
          intro a ha b hb
          rw [List.mem_singleton.mp hb]
          obtain ⟨da, hda, hle⟩ := hacc a ha
          simp only [startLtB, hda, hev'start]
          exact dateLeB_lt_trans hle hlt
        obtain ⟨⟨rest, hrest⟩, hpairout⟩ := ih ns' _ _ _ hok' hrun hacc' hpair'
        exact ⟨⟨ev' :: rest, by rw [hrest, List.append_assoc]; rfl⟩, hpairout⟩

theorem weekCountLoop_sorted (e : Event) (mask : Nat) (occ : Int) :
    ∀ fuel ns ne acc evs, DateOK ns →
      weekCountLoop e mask occ fuel ns ne acc = some evs →
      (∀ a ∈ acc, ∃ da, a.startDay = some da ∧ dateLtB da ns = true) →
      acc.Pairwise (fun a b => startLtB a b = true) →
      (∃ rest, evs = acc ++ rest) ∧ evs.Pairwise (fun a b => startLtB a b = true) := by
  intro fuel
  induction fuel with
  | zero =>
    intro ns ne acc evs hok hrun hacc hpair
    simp [weekCountLoop] at hrun
  | succ fuel ih =>
    intro ns ne acc evs hok hrun hacc hpair
    rw [weekCountLoop] at hrun
    by_cases hlen : (acc.length : Int) < occ
    · rw [if_pos hlen] at hrun
      have hok' := (addDate_day_step ns hok).1
      have hlt := (addDate_day_step ns hok).2
      set ns' := addDate 0 0 1 ns with hns'
      cases hflag : hasFlag mask (dayOfWeekFromWeekday (weekday ns)) with
      | false =>
        rw [hflag] at hrun
        simp only [Bool.not_false, if_true] at hrun
        have hacc' : ∀ a ∈ acc, ∃ da, a.startDay = some da ∧ dateLtB da ns' = true := by
          intro a ha
          obtain ⟨da, hda, hle⟩ := hacc a ha
          exact ⟨da, hda, dateLtB_trans hle hlt⟩
        exact ih ns' _ _ _ hok' hrun hacc' hpair
      | true =>
        rw [hflag] at hrun
        simp only [Bool.not_true, Bool.false_eq_true, if_false] at hrun
        set ev' : Event := { e with startDay := some ns, endDay := some ne } with hev'
        have hev'start : ev'.startDay = some ns := rfl
        have hacc' : ∀ a ∈ acc ++ [ev'], ∃ da, a.startDay = some da ∧ dateLtB da ns' = true := by
          intro a ha
          rcases List.mem_append.mp ha with ha | ha
          · obtain ⟨da, hda, hle⟩ := hacc a ha
            exact ⟨da, hda, dateLtB_trans hle hlt⟩
          · rw [List.mem_singleton.mp ha]
            exact ⟨ns, hev'start, hlt⟩
        have hpair' : (acc ++ [ev']).Pairwise (fun a b => startLtB a b = true) := by
          rw [List.pairwise_append]
          refine ⟨hpair, List.pairwise_singleton _ _, ?_⟩
          intro a ha b hb
          rw [List.mem_singleton.mp hb]
          obtain ⟨da, hda, hle⟩ := hacc a ha
          simp only [startLtB, hda, hev'start]
          exact hle
        obtain ⟨⟨rest, hrest⟩, hpairout⟩ := ih ns' _ _ _ hok' hrun hacc' hpair'
        exact ⟨⟨ev' :: rest, by rw [hrest, List.append_assoc]; rfl⟩, hpairout⟩
    · rw [if_neg hlen] at hrun
      obtain rfl : acc = evs := by injection hrun
      exact ⟨⟨[], (List.append_nil acc).symm⟩, hpair⟩

theorem weekStopLoop_sorted (e : Event) (mask : Nat) (stop : Time) :
    ∀ fuel ns ne acc evs, DateOK ns →
      weekStopLoop e mask stop fuel ns ne acc = some (.ok evs) →
      (∀ a ∈ acc, ∃ da, a.startDay = some da ∧ dateLtB da ns = true) →
      acc.Pairwise (fun a b => startLtB a b = true) →
      (∃ rest, evs = acc ++ rest) ∧ evs.Pairwise (fun a b => startLtB a b = true) := by
  intro fuel
  induction fuel with
  | zero =>
    intro ns ne acc evs hok hrun hacc hpair
    simp [weekStopLoop] at hrun
  | succ fuel ih =>
    intro ns ne acc evs hok hrun hacc hpair
    rw [weekStopLoop] at hrun
    cases hcond : timeLtB stop (midnight ns) with
    | true =>
      rw [hcond] at hrun
      simp only [Bool.not_true, Bool.false_eq_true, if_false] at hrun
      obtain rfl : acc = evs := by
        injection hrun with h
        injection h
      exact ⟨⟨[], (List.append_nil acc).symm⟩, hpair⟩
    | false =>
      rw [hcond] at hrun
      simp only [Bool.not_false, if_true] at hrun
      by_cases hlen : (acc.length : Int) > MaxRepeatOccurrence
      · rw [if_pos hlen] at hrun
        simp at hrun
      · rw [if_neg hlen] at hrun
        have hok' := (addDate_day_step ns hok).1
        have hlt := (addDate_day_step ns hok).2
        set ns' := addDate 0 0 1 ns with hns'
        cases hflag : hasFlag mask (dayOfWeekFromWeekday (weekday ns)) with
        | false =>
          rw [hflag] at hrun
          simp only [Bool.not_false, if_true] at hrun
          have hacc' : ∀ a ∈ acc, ∃ da, a.startDay = some da ∧ dateLtB da ns' = true := by
            intro a ha
            obtain ⟨da, hda, hle⟩ := hacc a ha
            exact ⟨da, hda, dateLtB_trans hle hlt⟩
          exact ih ns' _ _ _ hok' hrun hacc' hpair
        | true =>
          rw [hflag] at hrun
          simp only [Bool.not_true, Bool.false_eq_true, if_false] at hrun
          set ev' : Event := { e with startDay := some ns, endDay := some ne } with hev'
          have hev'start : ev'.startDay = some ns := rfl
          have hacc' : ∀ a ∈ acc ++ [ev'], ∃ da, a.startDay = some da ∧ dateLtB da ns' = true := by
            intro a ha
            rcases List.mem_append.mp ha with ha | ha
            · obtain ⟨da, hda, hle⟩ := hacc a ha
              exact ⟨da, hda, dateLtB_trans hle hlt⟩
            · rw [List.mem_singleton.mp ha]
              exact ⟨ns, hev'start, hlt⟩
          have hpair' : (acc ++ [ev']).Pairwise (fun a b => startLtB a b = true) := by
            rw [List.pairwise_append]
            refine ⟨hpair, List.pairwise_singleton _ _, ?_⟩
            intro a ha b hb
            rw [List.mem_singleton.mp hb]
            obtain ⟨da, hda, hle⟩ := hacc a ha
            simp only [startLtB, hda, hev'start]
            exact hle
          obtain ⟨⟨rest, hrest⟩, hpairout⟩ := ih ns' _ _ _ hok' hrun hacc' hpair'
          exact ⟨⟨ev' :: rest, by rw [hrest, List.append_assoc]; rfl⟩, hpairout⟩
theorem stopLoop_len (e : Event) (dy dm dd : Int) (stop : Time) :
    ∀ fuel ns ne acc evs,
      stopLoop e dy dm dd stop fuel ns ne acc = some (.ok evs) →
      evs.length ≤ acc.length ∨ (evs.length : Int) ≤ MaxRepeatOccurrence + 1 := by
  intro fuel
  induction fuel with
  | zero =>
    intro ns ne acc evs hrun
    simp [stopLoop] at hrun
  | succ fuel ih =>
    intro ns ne acc evs hrun
    rw [stopLoop] at hrun
    cases hcond : timeLtB stop (midnight ns) with
    | true =>
      rw [hcond] at hrun
      simp only [Bool.not_true, Bool.false_eq_true, if_false] at hrun
      obtain rfl : acc = evs := by
        injection hrun with h
        injection h
      left
      exact le_refl _
    | false =>
      rw [hcond] at hrun
      simp only [Bool.not_false, if_true] at hrun
      by_cases hlen : (acc.length : Int) > MaxRepeatOccurrence
      · rw [if_pos hlen] at hrun
        simp at hrun
      · rw [if_neg hlen] at hrun
        rcases ih _ _ _ _ hrun with h | h
        · right
          simp only [List.length_append, List.length_singleton] at h
          simp only [MaxRepeatOccurrence] at *
          omega
        · right
          exact h

theorem weekCountLoop_len (e : Event) (mask : Nat) (occ : Int) :
    ∀ fuel ns ne acc evs,
      weekCountLoop e mask occ fuel ns ne acc = some evs →
      evs.length ≤ acc.length ∨ (evs.length : Int) ≤ occ := by
  intro fuel
  induction fuel with
  | zero =>
    intro ns ne acc evs hrun
    simp [weekCountLoop] at hrun
  | succ fuel ih =>
    intro ns ne acc evs hrun
    rw [weekCountLoop] at hrun
    by_cases hlen : (acc.length : Int) < occ
    · rw [if_pos hlen] at hrun
      cases hflag : hasFlag mask (dayOfWeekFromWeekday (weekday ns)) with
      | false =>
        rw [hflag] at hrun
        simp only [Bool.not_false, if_true] at hrun
        rcases ih _ _ _ _ hrun with h | h
        · rcases Nat.lt_or_ge evs.length (acc.length + 1) with h2 | h2
          · left; omega
          · right; omega
        · right; exact h
      | true =>
        rw [hflag] at hrun
        simp only [Bool.not_true, Bool.false_eq_true, if_false] at hrun
        rcases ih _ _ _ _ hrun with h | h
        · right
          simp only [List.length_append, List.length_singleton] at h
          omega
        · right; exact h
    · rw [if_neg hlen] at hrun
      obtain rfl : acc = evs := by injection hrun
      left
      exact le_refl _

theorem weekStopLoop_len (e : Event) (mask : Nat) (stop : Time) :
    ∀ fuel ns ne acc evs,
      weekStopLoop e mask stop fuel ns ne acc = some (.ok evs) →
      evs.length ≤ acc.length ∨ (evs.length : Int) ≤ MaxRepeatOccurrence + 1 := by
  intro fuel
  induction fuel with
  | zero =>
    intro ns ne acc evs hrun
    simp [weekStopLoop] at hrun
  | succ fuel ih =>
    intro ns ne acc evs hrun
    rw [weekStopLoop] at hrun
    cases hcond : timeLtB stop (midnight ns) with
    | true =>
      rw [hcond] at hrun
      simp only [Bool.not_true, Bool.false_eq_true, if_false] at hrun
      obtain rfl : acc = evs := by
        injection hrun with h
        injection h
      left
      exact le_refl _
    | false =>
      rw [hcond] at hrun
      simp only [Bool.not_false, if_true] at hrun
      by_cases hlen : (acc.length : Int) > MaxRepeatOccurrence
      · rw [if_pos hlen] at hrun
        simp at hrun
      · rw [if_neg hlen] at hrun
        cases hflag : hasFlag mask (dayOfWeekFromWeekday (weekday ns)) with
        | false =>
          rw [hflag] at hrun
          simp only [Bool.not_false, if_true] at hrun
          rcases ih _ _ _ _ hrun with h | h
          · simp only [MaxRepeatOccurrence] at *
            omega
          · right; exact h
        | true =>
          rw [hflag] at hrun
          simp only [Bool.not_true, Bool.false_eq_true, if_false] at hrun
          rcases ih _ _ _ _ hrun with h | h
          · right
            simp only [List.length_append, List.length_singleton] at h
            simp only [MaxRepeatOccurrence] at *
            omega
          · right; exact h

theorem dateLtB_le_trans {a b c : Date} (h1 : dateLtB a b = true) (h2 : dateLeB b c = true) :
    dateLtB a c = true := by
  obtain ⟨ay, am, ad⟩ := a
  obtain ⟨by_, bm, bd⟩ := b
  obtain ⟨cy, cm, cd⟩ := c
  simp only [dateLeB, dateLtB, Bool.or_eq_true, Bool.and_eq_true, decide_eq_true_eq,
    beq_iff_eq, Date.mk.injEq] at *
  omega

theorem stopLoop_dropLast (e : Event) (dy dm dd : Int) (stop : Time) :
    ∀ fuel ns ne acc0 lastEv evs,
      lastEv.startDay = some ns →
      (∀ a ∈ acc0, ∀ da, a.startDay = some da → timeLtB stop (midnight da) = false) →
      stopLoop e dy dm dd stop fuel ns ne (acc0 ++ [lastEv]) = some (.ok evs) →
      ∀ a ∈ evs.dropLast, ∀ da, a.startDay = some da → timeLtB stop (midnight da) = false := by
  intro fuel
  induction fuel with
  | zero =>
    intro ns ne acc0 lastEv evs hlast hacc hrun
    simp [stopLoop] at hrun
  | succ fuel ih =>
    intro ns ne acc0 lastEv evs hlast hacc hrun
    rw [stopLoop] at hrun
    cases hcond : timeLtB stop (midnight ns) with
    | true =>
      rw [hcond] at hrun
      simp only [Bool.not_true, Bool.false_eq_true, if_false] at hrun
      obtain rfl : acc0 ++ [lastEv] = evs := by
        injection hrun with h
        injection h
      rw [List.dropLast_concat]
      exact hacc
    | false =>
      rw [hcond] at hrun
      simp only [Bool.not_false, if_true] at hrun
      by_cases hlen : ((acc0 ++ [lastEv]).length : Int) > MaxRepeatOccurrence
      · rw [if_pos hlen] at hrun
        simp at hrun
      · rw [if_neg hlen] at hrun
        set ns' := addDate dy dm dd ns with hns'
        set ev' : Event := { e with startDay := some ns', endDay := some (addDate dy dm dd ne) }
          with hev'
        have hrun' : stopLoop e dy dm dd stop fuel ns' (addDate dy dm dd ne)
            ((acc0 ++ [lastEv]) ++ [ev']) = some (.ok evs) := hrun
        refine ih ns' (addDate dy dm dd ne) (acc0 ++ [lastEv]) ev' evs rfl ?_ hrun'
        intro a ha da hda
        rcases List.mem_append.mp ha with ha | ha
        · exact hacc a ha da hda
        · rw [List.mem_singleton.mp ha, hlast] at hda
          obtain rfl : ns = da := by injection hda
          exact hcond

theorem weekStopLoop_le_stop (e : Event) (mask : Nat) (stop : Time) :
    ∀ fuel ns ne acc evs,
      weekStopLoop e mask stop fuel ns ne acc = some (.ok evs) →
      (∀ a ∈ acc, ∀ da, a.startDay = some da → timeLtB stop (midnight da) = false) →
      ∀ a ∈ evs, ∀ da, a.startDay = some da → timeLtB stop (midnight da) = false := by
  intro fuel
  induction fuel with
  | zero =>
    intro ns ne acc evs hrun hacc
    simp [weekStopLoop] at hrun
  | succ fuel ih =>
    intro ns ne acc evs hrun hacc
    rw [weekStopLoop] at hrun
    cases hcond : timeLtB stop (midnight ns) with
    | true =>
      rw [hcond] at hrun
      simp only [Bool.not_true, Bool.false_eq_true, if_false] at hrun
      obtain rfl : acc = evs := by
        injection hrun with h
        injection h
      exact hacc
    | false =>
      rw [hcond] at hrun
      simp only [Bool.not_false, if_true] at hrun
      by_cases hlen : (acc.length : Int) > MaxRepeatOccurrence
      · rw [if_pos hlen] at hrun
        simp at hrun
      · rw [if_neg hlen] at hrun
        cases hflag : hasFlag mask (dayOfWeekFromWeekday (weekday ns)) with
        | false =>
          rw [hflag] at hrun
          simp only [Bool.not_false, if_true] at hrun
          exact ih _ _ _ _ hrun hacc
        | true =>
          rw [hflag] at hrun
          simp only [Bool.not_true, Bool.false_eq_true, if_false] at hrun
          refine ih _ _ _ _ hrun ?_
          intro a ha da hda
          rcases List.mem_append.mp ha with ha | ha
          · exact hacc a ha da hda
          · rw [List.mem_singleton.mp ha] at hda
            obtain rfl : ns = da := by injection hda
            exact hcond
theorem weekCountLoop_prefix (e : Event) (mask : Nat) (occ : Int) :
    ∀ fuel ns ne acc evs,
      weekCountLoop e mask occ fuel ns ne acc = some evs →
      ∃ rest, evs = acc ++ rest := by
  intro fuel
  induction fuel with
  | zero =>
    intro ns ne acc evs hrun
    simp [weekCountLoop] at hrun
  | succ fuel ih =>
    intro ns ne acc evs hrun
    rw [weekCountLoop] at hrun
    by_cases hlen : (acc.length : Int) < occ
    · rw [if_pos hlen] at hrun
      cases hflag : hasFlag mask (dayOfWeekFromWeekday (weekday ns)) with
      | false =>
        rw [hflag] at hrun
        simp only [Bool.not_false, if_true] at hrun
        exact ih _ _ _ _ hrun
      | true =>
        rw [hflag] at hrun
        simp only [Bool.not_true, Bool.false_eq_true, if_false] at hrun
        obtain ⟨rest, hrest⟩ := ih _ _ _ _ hrun
        exact ⟨_ :: rest, by rw [hrest, List.append_assoc]; rfl⟩
    · rw [if_neg hlen] at hrun
      obtain rfl : acc = evs := by injection hrun
      exact ⟨[], (List.append_nil acc).symm⟩

theorem weekCountLoop_mem (e : Event) (mask : Nat) (occ : Int) :
    ∀ fuel ns ne acc evs, DateOK ns →
      weekCountLoop e mask occ fuel ns ne acc = some evs →
      ∀ ev ∈ evs, ev ∈ acc ∨ ∃ da, ev.startDay = some da ∧ dateLeB ns da = true ∧
        hasFlag mask (dayOfWeekFromWeekday (weekday da)) = true := by
  intro fuel
  induction fuel with
  | zero =>
    intro ns ne acc evs hok hrun
    simp [weekCountLoop] at hrun
  | succ fuel ih =>
    intro ns ne acc evs hok hrun
    rw [weekCountLoop] at hrun
    by_cases hlen : (acc.length : Int) < occ
    · rw [if_pos hlen] at hrun
      have hok' := (addDate_day_step ns hok).1
      have hlt := (addDate_day_step ns hok).2
      set ns' := addDate 0 0 1 ns with hns'
      cases hflag : hasFlag mask (dayOfWeekFromWeekday (weekday ns)) with
      | false =>
        rw [hflag] at hrun
        simp only [Bool.not_false, if_true] at hrun
        intro ev hev
        rcases ih ns' _ _ _ hok' hrun ev hev with h | ⟨da, hda, hge, hfl⟩
        · exact Or.inl h
        · exact Or.inr ⟨da, hda, dateLtB_le (dateLtB_le_trans hlt hge), hfl⟩
      | true =>
        rw [hflag] at hrun
        simp only [Bool.not_true, Bool.false_eq_true, if_false] at hrun
        intro ev hev
        rcases ih ns' _ _ _ hok' hrun ev hev with h | ⟨da, hda, hge, hfl⟩
        · rcases List.mem_append.mp h with h | h
          · exact Or.inl h
          · rw [List.mem_singleton.mp h]
            exact Or.inr ⟨ns, rfl, dateLeB_refl ns, hflag⟩
        · exact Or.inr ⟨da, hda, dateLtB_le (dateLtB_le_trans hlt hge), hfl⟩
    · rw [if_neg hlen] at hrun
      obtain rfl : acc = evs := by injection hrun
      exact fun ev hev => Or.inl hev

theorem weekCountLoop_start_mem (e : Event) (mask : Nat) (occ : Int)
    (fuel : Nat) (ns ne : Date) (acc : List Event) (evs : List Event)
    (hlen : (acc.length : Int) < occ)
    (hflag : hasFlag mask (dayOfWeekFromWeekday (weekday ns)) = true)
    (hrun : weekCountLoop e mask occ fuel ns ne acc = some evs) :
    ∃ ev ∈ evs, ev.startDay = some ns := by
  cases fuel with
  | zero => simp [weekCountLoop] at hrun
  | succ fuel =>
    rw [weekCountLoop, if_pos hlen, hflag] at hrun
    simp only [Bool.not_true, Bool.false_eq_true, if_false] at hrun
    obtain ⟨rest, hrest⟩ := weekCountLoop_prefix e mask occ fuel _ _ _ _ hrun
    refine ⟨{ e with startDay := some ns, endDay := some ne }, ?_, rfl⟩
    rw [hrest]
    simp

theorem weekCountLoop_diverges (e : Event) (mask : Nat) (occ : Int)
    (hocc : 0 < occ)
    (hmask : ∀ w, hasFlag mask (dayOfWeekFromWeekday w) = false) :
    ∀ fuel ns ne, weekCountLoop e mask occ fuel ns ne [] = none := by
  intro fuel
  induction fuel with
  | zero => intro ns ne; rfl
  | succ fuel ih =>
    intro ns ne
    rw [weekCountLoop]
    rw [if_pos (by simp; omega), hmask (weekday ns)]
    simp only [Bool.not_false, if_true]
    exact ih _ _
theorem finishRepeat_ok {l evs : List Event} (h : finishRepeat l = .ok evs) :
    l = evs ∧ evs ≠ [] := by
  unfold finishRepeat at h
  by_cases he : l.isEmpty
  · rw [if_pos he] at h
    simp at h
  · rw [if_neg he] at h
    injection h with h
    subst h
    exact ⟨rfl, by simpa [List.isEmpty_iff] using he⟩

theorem generate_ok_elim (fuel : Nat) (e : Event) (evs : List Event)
    (h : GenerateRepeatEvents fuel e = some (.ok evs)) :
    ∃ sd ed r, e.isRepeating = true ∧ e.startDay = some sd ∧ e.endDay = some ed ∧
      Validate e = none ∧ e.repeat = some r ∧ evs ≠ [] ∧
      (((r.repeatType = RepeatTypeDaily ∨ r.repeatType = RepeatTypeMonthly ∨
          r.repeatType = RepeatTypeYearly) ∧
        ((2 ≤ r.repeatOccurrences ∧
            countLoop e (if r.repeatType == RepeatTypeYearly then 1 else 0)
              (if r.repeatType == RepeatTypeMonthly then 1 else 0)
              (if r.repeatType == RepeatTypeDaily then 1 else 0)
              r.repeatOccurrences fuel sd ed [e] = some evs) ∨
         (r.repeatOccurrences < 2 ∧ ∃ stop, r.repeatStopDate = some stop ∧
            stopLoop e (if r.repeatType == RepeatTypeYearly then 1 else 0)
              (if r.repeatType == RepeatTypeMonthly then 1 else 0)
              (if r.repeatType == RepeatTypeDaily then 1 else 0)
              stop fuel sd ed [e] = some (.ok evs)) ∨
         (r.repeatOccurrences < 2 ∧ r.repeatStopDate = none ∧ evs = [e]))) ∨
       (r.repeatType = RepeatTypeWeekly ∧
        ((2 ≤ r.repeatOccurrences ∧
            weekCountLoop e r.dayOfWeek r.repeatOccurrences fuel sd ed [] = some evs) ∨
         (r.repeatOccurrences < 2 ∧ ∃ stop, r.repeatStopDate = some stop ∧
            weekStopLoop e r.dayOfWeek stop fuel sd ed [] = some (.ok evs))))) := by
  unfold GenerateRepeatEvents at h
  by_cases hrep : e.isRepeating
  · rw [if_neg (by simp [hrep])] at h
    cases hsd : e.startDay with
    | none => rw [hsd] at h; simp at h
    | some sd =>
      rw [hsd] at h
      cases hed : e.endDay with
      | none => rw [hed] at h; simp at h
      | some ed =>
        rw [hed] at h
        cases hv : Validate e with
        | some err => rw [hv] at h; simp at h
        | none =>
          rw [hv] at h
          cases hr : e.repeat with
          | none => rw [hr] at h; simp at h
          | some r =>
            rw [hr] at h
            dsimp only at h
            refine ⟨sd, ed, r, hrep, rfl, rfl, rfl, rfl, ?_⟩
            by_cases ht : (r.repeatType == RepeatTypeDaily || r.repeatType == RepeatTypeMonthly
                || r.repeatType == RepeatTypeYearly) = true
            · rw [if_pos ht] at h
              by_cases hocc : r.repeatOccurrences ≥ 2
              · rw [if_pos hocc] at h
                cases hcl : countLoop e (if r.repeatType == RepeatTypeYearly then 1 else 0)
                    (if r.repeatType == RepeatTypeMonthly then 1 else 0)
                    (if r.repeatType == RepeatTypeDaily then 1 else 0)
                    r.repeatOccurrences fuel sd ed [e] with
                | none => rw [hcl] at h; simp at h
                | some evs' =>
                  rw [hcl] at h
                  injection h with h
                  obtain ⟨hleq, hne⟩ := finishRepeat_ok h
                  subst hleq
                  refine ⟨hne, Or.inl ⟨?_, Or.inl ⟨hocc, rfl⟩⟩⟩
                  have ht2 := ht
                  simp [RepeatTypeDaily, RepeatTypeMonthly, RepeatTypeYearly] at ht2
                  tauto
              · rw [if_neg hocc] at h
                cases hsp : r.repeatStopDate with
                | some stop =>
                  rw [hsp] at h
                  dsimp only at h
                  cases hsl : stopLoop e (if r.repeatType == RepeatTypeYearly then 1 else 0)
                      (if r.repeatType == RepeatTypeMonthly then 1 else 0)
                      (if r.repeatType == RepeatTypeDaily then 1 else 0)
                      stop fuel sd ed [e] with
                  | none => rw [hsl] at h; simp at h
                  | some res =>
                    rw [hsl] at h
                    cases res with
                    | error err => simp at h
                    | ok evs' =>
                      dsimp only at h
                      injection h with h
                      obtain ⟨hleq, hne⟩ := finishRepeat_ok h
                      subst hleq
                      refine ⟨hne, Or.inl ⟨?_, Or.inr (Or.inl ⟨by omega, stop, rfl, hsl⟩)⟩⟩
                      have ht2 := ht
                      simp [RepeatTypeDaily, RepeatTypeMonthly, RepeatTypeYearly] at ht2
                      tauto
                | none =>
                  rw [hsp] at h
                  dsimp only at h
                  injection h with h
                  obtain ⟨hl, hne⟩ := finishRepeat_ok h
                  refine ⟨hne, Or.inl ⟨?_, Or.inr (Or.inr ⟨by omega, rfl, hl.symm⟩)⟩⟩
                  have ht2 := ht
                  simp [RepeatTypeDaily, RepeatTypeMonthly, RepeatTypeYearly] at ht2
                  tauto
            · rw [if_neg ht] at h
              by_cases hw : (r.repeatType == RepeatTypeWeekly) = true
              · rw [if_pos hw] at h
                by_cases hocc : r.repeatOccurrences ≥ 2
                · rw [if_pos hocc] at h
                  cases hcl : weekCountLoop e r.dayOfWeek r.repeatOccurrences fuel sd ed [] with
                  | none => rw [hcl] at h; simp at h
                  | some evs' =>
                    rw [hcl] at h
                    injection h with h
                    obtain ⟨hleq, hne⟩ := finishRepeat_ok h
                    subst hleq
                    refine ⟨hne, Or.inr ⟨by simpa [RepeatTypeWeekly] using hw, Or.inl ⟨hocc, rfl⟩⟩⟩
                · rw [if_neg hocc] at h
                  cases hsp : r.repeatStopDate with
                  | some stop =>
                    rw [hsp] at h
                    dsimp only at h
                    cases hsl : weekStopLoop e r.dayOfWeek stop fuel sd ed [] with
                    | none => rw [hsl] at h; simp at h
                    | some res =>
                      rw [hsl] at h
                      cases res with
                      | error err => simp at h
                      | ok evs' =>
                        dsimp only at h
                        injection h with h
                        obtain ⟨hleq, hne⟩ := finishRepeat_ok h
                        subst hleq
                        refine ⟨hne, Or.inr ⟨by simpa [RepeatTypeWeekly] using hw,
                          Or.inr ⟨by omega, stop, rfl, hsl⟩⟩⟩
                  | none =>
                    rw [hsp] at h
                    dsimp only at h
                    simp [finishRepeat] at h
              · rw [if_neg hw] at h
                simp [finishRepeat] at h
  · rw [if_pos (by simp [hrep])] at h
    simp at h
def c2Event : Event := {
  isRepeating := true
  isAllDay := true
  zone := "UTC"
  startDay := some ⟨2008, 1, 1⟩
  endDay := some ⟨2008, 1, 1⟩
  «repeat» := some ⟨RepeatTypeWeekly, 128, 2, none⟩
}

theorem c2_mask_never_matches : ∀ w, hasFlag 128 (dayOfWeekFromWeekday w) = false := by
  intro w
  rcases w with _ | _ | _ | _ | _ | _ | _ | w
  · decide
  · decide
  · decide
  · decide
  · decide
  · decide
  · decide
  · show hasFlag 128 DayOfWeekSunday = false
    decide

theorem c2_diverges : ∀ fuel, GenerateRepeatEvents fuel c2Event = none := by
  intro fuel
  have h := weekCountLoop_diverges c2Event 128 2 (by norm_num) c2_mask_never_matches
    fuel ⟨2008, 1, 1⟩ ⟨2008, 1, 1⟩
  show (match weekCountLoop c2Event 128 2 fuel ⟨2008, 1, 1⟩ ⟨2008, 1, 1⟩ [] with
    | none => none
    | some evs => some (finishRepeat evs)) = none
  rw [h]
def c1Daily : Event := {
  isRepeating := true
  isAllDay := true
  zone := "UTC"
  startDay := some ⟨2008, 1, 1⟩
  endDay := some ⟨2008, 1, 1⟩
  «repeat» := some ⟨RepeatTypeDaily, 0, 3, none⟩
}

def c1DailyOut : List Event :=
  [c1Daily,
   { c1Daily with startDay := some ⟨2008, 1, 2⟩, endDay := some ⟨2008, 1, 2⟩ },
   { c1Daily with startDay := some ⟨2008, 1, 3⟩, endDay := some ⟨2008, 1, 3⟩ }]

theorem generate_stepOK (r : Repeat)
    (htype : r.repeatType = RepeatTypeDaily ∨ r.repeatType = RepeatTypeMonthly ∨
      r.repeatType = RepeatTypeYearly) :
    ∀ u, DateOK u →
      DateOK (addDate (if r.repeatType == RepeatTypeYearly then 1 else 0)
        (if r.repeatType == RepeatTypeMonthly then 1 else 0)
        (if r.repeatType == RepeatTypeDaily then 1 else 0) u) ∧
      dateLtB u (addDate (if r.repeatType == RepeatTypeYearly then 1 else 0)
        (if r.repeatType == RepeatTypeMonthly then 1 else 0)
        (if r.repeatType == RepeatTypeDaily then 1 else 0) u) = true := by
  intro u hu
  rcases htype with h0 | h0 | h0 <;> rw [h0] <;>
    simp only [RepeatTypeDaily, RepeatTypeMonthly, RepeatTypeYearly] <;>
    norm_num
  · exact addDate_day_step u hu
  · exact addDate_month_step u hu
  · exact addDate_year_step u hu

/-- C1: on every template on which it succeeds, `GenerateRepeatEvents`
returns a non-empty occurrence sequence whose start dates are in strictly
ascending chronological order; and the Daily template starting 2008-01-01
with occurrence count 3 yields exactly the three occurrences dated
2008-01-01, 2008-01-02, 2008-01-03 in that order.  (The hypothesis
`DateOK sd` records that the start day field is an actual parsed date,
which `time.Parse` guarantees.) -/
theorem generateRepeatEvents_ascending :
    (∀ fuel e evs sd, e.startDay = some sd → DateOK sd →
      GenerateRepeatEvents fuel e = some (.ok evs) →
      evs ≠ [] ∧ evs.Pairwise (fun a b => startLtB a b = true))
    ∧ GenerateRepeatEvents 2000 c1Daily = some (.ok c1DailyOut) := by
  constructor
  · intro fuel e evs sd hsd hok h
    obtain ⟨sd', ed, r, hrep, hsd', hed, hv, hr, hne, hbr⟩ := generate_ok_elim fuel e evs h
    rw [hsd] at hsd'
    injection hsd' with h2
    subst h2
    refine ⟨hne, ?_⟩
    have hacc0 : ∀ a ∈ [e], ∃ da, a.startDay = some da ∧ dateLeB da sd = true := by
      intro a ha
      rw [List.mem_singleton.mp ha]
      exact ⟨sd, hsd, dateLeB_refl sd⟩
    have hpair0 : ([e] : List Event).Pairwise (fun a b => startLtB a b = true) :=
      List.pairwise_singleton _ _
    rcases hbr with ⟨htype, hsub⟩ | ⟨htype, hsub⟩
    · have hstep := generate_stepOK r htype
      rcases hsub with ⟨hocc, hcl⟩ | ⟨hocc, stop, hsp, hsl⟩ | ⟨hocc, hsp, rfl⟩
      · exact (countLoop_sorted e _ _ _ _ hstep fuel sd ed [e] evs hok hcl hacc0 hpair0).2
      · exact (stopLoop_sorted e _ _ _ stop hstep fuel sd ed [e] evs hok hsl hacc0 hpair0).2
      · exact List.pairwise_singleton _ _
    · rcases hsub with ⟨hocc, hcl⟩ | ⟨hocc, stop, hsp, hsl⟩
      · exact (weekCountLoop_sorted e _ _ fuel sd ed [] evs hok hcl (by simp) (by simp)).2
      · exact (weekStopLoop_sorted e _ stop fuel sd ed [] evs hok hsl (by simp) (by simp)).2
  · rfl

/-- Witness for C1: the general part applied to the concrete Daily run. -/
theorem generateRepeatEvents_ascending_witness :
    c1DailyOut ≠ [] ∧ c1DailyOut.Pairwise (fun a b => startLtB a b = true) :=
  generateRepeatEvents_ascending.1 2000 c1Daily c1DailyOut ⟨2008, 1, 1⟩ rfl (by decide)
    generateRepeatEvents_ascending.2
deriving instance DecidableEq for Except

theorem countLoop_len (e : Event) (dy dm dd occ : Int) :
    ∀ fuel ns ne acc evs,
      countLoop e dy dm dd occ fuel ns ne acc = some evs →
      evs.length ≤ acc.length ∨ (evs.length : Int) ≤ occ := by
  intro fuel
  induction fuel with
  | zero =>
    intro ns ne acc evs hrun
    simp [countLoop] at hrun
  | succ fuel ih =>
    intro ns ne acc evs hrun
    rw [countLoop] at hrun
    by_cases hlen : (acc.length : Int) < occ
    · rw [if_pos hlen] at hrun
      rcases ih _ _ _ _ hrun with h | h
      · right
        simp only [List.length_append, List.length_singleton] at h
        omega
      · right
        exact h
    · rw [if_neg hlen] at hrun
      obtain rfl : acc = evs := by injection hrun
      left
      exact le_refl _
theorem validate_none_parts (e : Event) (hv : Validate e = none) :
    ValidTimes e.startDay e.startTime e.endDay e.endTime e.zone e.isAllDay = none ∧
    ValidRepeat e = none ∧ ValidStatus e.status = true := by
  unfold Validate at hv
  cases h1 : ValidTimes e.startDay e.startTime e.endDay e.endTime e.zone e.isAllDay with
  | some err => rw [h1] at hv; simp at hv
  | none =>
    rw [h1] at hv
    cases h2 : ValidRepeat e with
    | some err => rw [h2] at hv; simp at hv
    | none =>
      rw [h2] at hv
      dsimp only at hv
      by_cases h3 : ValidStatus e.status
      · exact ⟨rfl, rfl, h3⟩
      · rw [if_neg h3] at hv
        simp at hv

theorem validRepeat_facts (e : Event) (r : Repeat) (sd : Date) (hrep : e.isRepeating = true)
    (hsd : e.startDay = some sd) (hr : e.repeat = some r) (hv : ValidRepeat e = none) :
    r.repeatOccurrences ≤ MaxRepeatOccurrence ∧ r.repeatOccurrences ≠ 1 ∧
      0 ≤ r.repeatOccurrences ∧
      (∀ stop, r.repeatStopDate = some stop → timeLtB stop (midnight sd) = false) := by
  unfold ValidRepeat at hv
  rw [hrep] at hv
  simp only [if_true] at hv
  rw [hsd] at hv
  dsimp only at hv
  rw [hr] at hv
  dsimp only at hv
  by_cases h1 : r.repeatOccurrences > MaxRepeatOccurrence
  · rw [if_pos h1] at hv; simp at hv
  · rw [if_neg h1] at hv
    by_cases h2 : (r.repeatOccurrences == 1 || decide (r.repeatOccurrences < 0)) = true
    · rw [if_pos h2] at hv; simp at hv
    · rw [if_neg h2] at hv
      simp only [Bool.or_eq_true, beq_iff_eq, decide_eq_true_eq, not_or] at h2
      refine ⟨by omega, h2.1, by omega, ?_⟩
      intro stop hstop
      rw [hstop] at hv
      rw [show ((some stop == (none : Option Time)) && r.repeatOccurrences == 0) = false
        from by simp] at hv
      simp only [Bool.false_eq_true, if_false] at hv
      by_cases h4 : timeLtB stop (midnight sd) = true
      · rw [if_pos h4] at hv; simp at hv
      · simp only [Bool.not_eq_true] at h4
        exact h4

/-- C3 (amended): on every template accepted by `Validate` on which it
succeeds, `GenerateRepeatEvents` returns between 1 and 31 occurrences:
fixed-count generation returns exactly the requested count (at most 30),
while stop-date generation checks the cap only on loop entry and so can
return up to 31 occurrences, and a single matching day yields a
one-element series. -/
theorem generateRepeatEvents_length (fuel : Nat) (e : Event) (evs : List Event)
    (hv : Validate e = none) (h : GenerateRepeatEvents fuel e = some (.ok evs)) :
    1 ≤ evs.length ∧ evs.length ≤ 31 := by
  obtain ⟨sd, ed, r, hrep, hsd, hed, _, hr, hne, hbr⟩ := generate_ok_elim fuel e evs h
  have hocc30 := (validRepeat_facts e r sd hrep hsd hr (validate_none_parts e hv).2.1).1
  refine ⟨List.length_pos.mpr hne, ?_⟩
  have h31 : (31 : Int) = MaxRepeatOccurrence + 1 := by simp [MaxRepeatOccurrence]
  rcases hbr with ⟨htype, hsub⟩ | ⟨htype, hsub⟩
  · rcases hsub with ⟨hocc, hcl⟩ | ⟨hocc, stop, hsp, hsl⟩ | ⟨hocc, hsp, rfl⟩
    · rcases countLoop_len e _ _ _ _ fuel sd ed [e] evs hcl with hl | hl
      · simp at hl
        omega
      · simp only [MaxRepeatOccurrence] at hocc30
        omega
    · rcases stopLoop_len e _ _ _ stop fuel sd ed [e] evs hsl with hl | hl
      · simp at hl
        omega
      · simp only [MaxRepeatOccurrence] at hl
        omega
    · simp
  · rcases hsub with ⟨hocc, hcl⟩ | ⟨hocc, stop, hsp, hsl⟩
    · rcases weekCountLoop_len e _ _ fuel sd ed [] evs hcl with hl | hl
      · simp at hl
        simp [hl]
      · simp only [MaxRepeatOccurrence] at hocc30
        omega
    · rcases weekStopLoop_len e _ stop fuel sd ed [] evs hsl with hl | hl
      · simp at hl
        simp [hl]
      · simp only [MaxRepeatOccurrence] at hl
        omega

/-- Witness for C3: the amended bound applied to the Daily count-3 run. -/
theorem generateRepeatEvents_length_witness :
    1 ≤ c1DailyOut.length ∧ c1DailyOut.length ≤ 31 :=
  generateRepeatEvents_length 2000 c1Daily c1DailyOut rfl rfl

def c3Event : Event := {
  isRepeating := true
  isAllDay := true
  zone := "UTC"
  startDay := some ⟨2008, 1, 1⟩
  endDay := some ⟨2008, 1, 1⟩
  «repeat» := some ⟨RepeatTypeWeekly, DayOfWeekTuesday, 0, some (midnight ⟨2008, 1, 1⟩)⟩
}

/-- A Daily template accepted by `Validate` with stop date 29 days after
the start (2008-01-30). -/
def c3LongEvent : Event := {
  isRepeating := true
  isAllDay := true
  zone := "UTC"
  startDay := some ⟨2008, 1, 1⟩
  endDay := some ⟨2008, 1, 1⟩
  «repeat» := some ⟨RepeatTypeDaily, 0, 0, some (midnight ⟨2008, 1, 30⟩)⟩
}

/-- The run of `c3LongEvent`: one occurrence on each of 2008-01-01 through
2008-01-31 — the loop admits each candidate at or before the stop date and
then appends the stepped copy, and its cap check fires only on more than
30 accumulated events, so 31 occurrences are returned. -/
def c3LongOut : List Event :=
  (List.range 31).map (fun i =>
    { c3LongEvent with startDay := some ⟨2008, 1, i + 1⟩, endDay := some ⟨2008, 1, i + 1⟩ })

/-- C3 counterexample, refuting both claimed bounds.  Lower bound: a Weekly
template accepted by `Validate` (mask Tuesday, start 2008-01-01 which is a
Tuesday, stop date equal to the start day) generates exactly one
occurrence, not at least 2.  Upper bound: the Daily template `c3LongEvent`,
also accepted by `Validate`, generates 31 occurrences, not at most 30. -/
theorem c3_counterexample :
    (Validate c3Event = none ∧
      GenerateRepeatEvents 2000 c3Event = some (.ok [c3Event]) ∧
      ([c3Event] : List Event).length = 1) ∧
    (Validate c3LongEvent = none ∧
      GenerateRepeatEvents 2000 c3LongEvent = some (.ok c3LongOut) ∧
      c3LongOut.length = 31) :=
  ⟨⟨by decide, by decide, rfl⟩, ⟨by decide, by decide, rfl⟩⟩
/-- C4 (amended): for a stop-date-terminated template, Weekly generation
emits only start dates at or before the stop date, while Daily, Monthly and
Yearly generation guarantees this only for every occurrence except the
last one (the loop admits a candidate at or before the stop date but emits
the stepped date, so the final occurrence can exceed the stop date). -/
theorem generateRepeatEvents_stop_bounds (fuel : Nat) (e : Event) (evs : List Event)
    (r : Repeat) (stop : Time) (hr : e.repeat = some r)
    (hocc : r.repeatOccurrences < 2) (hsp : r.repeatStopDate = some stop)
    (h : GenerateRepeatEvents fuel e = some (.ok evs)) :
    (r.repeatType = RepeatTypeWeekly →
      ∀ ev ∈ evs, ∀ da, ev.startDay = some da → timeLtB stop (midnight da) = false)
    ∧ (r.repeatType ≠ RepeatTypeWeekly →
      ∀ ev ∈ evs.dropLast, ∀ da, ev.startDay = some da →
        timeLtB stop (midnight da) = false) := by
  obtain ⟨sd, ed, r', hrep, hsd, hed, hv, hr', hne, hbr⟩ := generate_ok_elim fuel e evs h
  rw [hr] at hr'
  injection hr' with hr2
  subst hr2
  rcases hbr with ⟨htype, hsub⟩ | ⟨htype, hsub⟩
  · rcases hsub with ⟨hocc2, hcl⟩ | ⟨hocc2, stop', hsp', hsl⟩ | ⟨hocc2, hsp', rfl⟩
    · omega
    · rw [hsp] at hsp'
      injection hsp' with hsp2
      subst hsp2
      constructor
      · intro hw
        rcases htype with ht | ht | ht <;>
          rw [hw] at ht <;>
          simp [RepeatTypeWeekly, RepeatTypeDaily, RepeatTypeMonthly, RepeatTypeYearly] at ht
      · intro hnw
        have hrun : stopLoop e (if (r.repeatType == RepeatTypeYearly) = true then 1 else 0)
            (if (r.repeatType == RepeatTypeMonthly) = true then 1 else 0)
            (if (r.repeatType == RepeatTypeDaily) = true then 1 else 0)
            stop fuel sd ed ([] ++ [e]) = some (.ok evs) := hsl
        exact stopLoop_dropLast e _ _ _ stop fuel sd ed [] e evs hsd (by simp) hrun
    · rw [hsp] at hsp'
      simp at hsp'
  · rcases hsub with ⟨hocc2, hcl⟩ | ⟨hocc2, stop', hsp', hsl⟩
    · omega
    · rw [hsp] at hsp'
      injection hsp' with hsp2
      subst hsp2
      constructor
      · intro hw
        exact weekStopLoop_le_stop e _ stop fuel sd ed [] evs hsl (by simp)
      · intro hnw
        exact absurd htype hnw

def c4Event : Event := {
  isRepeating := true
  isAllDay := true
  zone := "UTC"
  startDay := some ⟨2008, 1, 1⟩
  endDay := some ⟨2008, 1, 1⟩
  «repeat» := some ⟨RepeatTypeDaily, 0, 0, some (midnight ⟨2008, 1, 2⟩)⟩
}

def c4Out : List Event :=
  [c4Event,
   { c4Event with startDay := some ⟨2008, 1, 2⟩, endDay := some ⟨2008, 1, 2⟩ },
   { c4Event with startDay := some ⟨2008, 1, 3⟩, endDay := some ⟨2008, 1, 3⟩ }]

/-- C4 counterexample: a Daily template accepted by `Validate` with stop
date 2008-01-02 generates [01-01, 01-02, 01-03]; the final occurrence
starts strictly after the stop date, refuting the claim for the Daily
cadence. -/
theorem c4_counterexample :
    Validate c4Event = none ∧
    GenerateRepeatEvents 2000 c4Event = some (.ok c4Out) ∧
    c4Out.getLast? = some { c4Event with startDay := some ⟨2008, 1, 3⟩, endDay := some ⟨2008, 1, 3⟩ } ∧
    timeLtB (midnight ⟨2008, 1, 2⟩) (midnight ⟨2008, 1, 3⟩) = true :=
  ⟨by decide, by decide, by decide, by decide⟩

/-- Witness for C4: the Weekly half applied to the single-occurrence
Weekly stop-date run. -/
theorem generateRepeatEvents_stop_bounds_witness :
    timeLtB (midnight ⟨2008, 1, 1⟩) (midnight ⟨2008, 1, 1⟩) = false :=
  (generateRepeatEvents_stop_bounds 2000 c3Event [c3Event]
      ⟨RepeatTypeWeekly, DayOfWeekTuesday, 0, some (midnight ⟨2008, 1, 1⟩)⟩
      (midnight ⟨2008, 1, 1⟩) rfl (by decide) rfl (by decide)).1 rfl
    c3Event (by simp) ⟨2008, 1, 1⟩ rfl
def c5Tue : Event := {
  isRepeating := true
  isAllDay := true
  zone := "UTC"
  startDay := some ⟨2008, 1, 1⟩
  endDay := some ⟨2008, 1, 1⟩
  «repeat» := some ⟨RepeatTypeWeekly, DayOfWeekTuesday, 3, none⟩
}

def c5TueOut : List Event :=
  [c5Tue,
   { c5Tue with startDay := some ⟨2008, 1, 8⟩, endDay := some ⟨2008, 1, 8⟩ },
   { c5Tue with startDay := some ⟨2008, 1, 15⟩, endDay := some ⟨2008, 1, 15⟩ }]

def c5WedThu : Event := {
  isRepeating := true
  isAllDay := true
  zone := "UTC"
  startDay := some ⟨2008, 1, 1⟩
  endDay := some ⟨2008, 1, 1⟩
  «repeat» := some ⟨RepeatTypeWeekly, DayOfWeekWednesday ||| DayOfWeekThursday, 5, none⟩
}

def c5WedThuOut : List Event :=
  [{ c5WedThu with startDay := some ⟨2008, 1, 2⟩, endDay := some ⟨2008, 1, 2⟩ },
   { c5WedThu with startDay := some ⟨2008, 1, 3⟩, endDay := some ⟨2008, 1, 3⟩ },
   { c5WedThu with startDay := some ⟨2008, 1, 9⟩, endDay := some ⟨2008, 1, 9⟩ },
   { c5WedThu with startDay := some ⟨2008, 1, 10⟩, endDay := some ⟨2008, 1, 10⟩ },
   { c5WedThu with startDay := some ⟨2008, 1, 16⟩, endDay := some ⟨2008, 1, 16⟩ }]

/-- C5: in Weekly fixed-count generation the template's own start date is
emitted exactly when its weekday is in the day-of-week mask; concretely,
start 2008-01-01 (a Tuesday) with mask Tuesday and count 3 yields
[01-01, 01-08, 01-15], while mask Wednesday-or-Thursday and count 5 yields
[01-02, 01-03, 01-09, 01-10, 01-16] with the start date excluded. -/
theorem weekly_start_membership :
    (∀ fuel e evs r sd, e.repeat = some r → r.repeatType = RepeatTypeWeekly →
      2 ≤ r.repeatOccurrences → e.startDay = some sd → DateOK sd →
      GenerateRepeatEvents fuel e = some (.ok evs) →
      ((∃ ev ∈ evs, ev.startDay = some sd) ↔
        hasFlag r.dayOfWeek (dayOfWeekFromWeekday (weekday sd)) = true))
    ∧ GenerateRepeatEvents 2000 c5Tue = some (.ok c5TueOut)
    ∧ GenerateRepeatEvents 2000 c5WedThu = some (.ok c5WedThuOut) := by
  refine ⟨?_, by decide, by decide⟩
  intro fuel e evs r sd hr hw hocc hsd hok h
  obtain ⟨sd', ed, r', hrep, hsd', hed, hv, hr', hne, hbr⟩ := generate_ok_elim fuel e evs h
  rw [hr] at hr'
  injection hr' with hr2
  subst hr2
  rw [hsd] at hsd'
  injection hsd' with hsd2
  subst hsd2
  rcases hbr with ⟨htype, hsub⟩ | ⟨htype, hsub⟩
  · rcases htype with ht | ht | ht <;>
      rw [hw] at ht <;>
      simp [RepeatTypeWeekly, RepeatTypeDaily, RepeatTypeMonthly, RepeatTypeYearly] at ht
  · rcases hsub with ⟨hocc2, hcl⟩ | ⟨hocc2, stop, hsp, hsl⟩
    · constructor
      · rintro ⟨ev, hev, hevsd⟩
        rcases weekCountLoop_mem e r.dayOfWeek r.repeatOccurrences fuel sd ed [] evs
            hok hcl ev hev with hmem | ⟨da, hda, hge, hfl⟩
        · simp at hmem
        · rw [hevsd] at hda
          injection hda with hda2
          rw [hda2]
          exact hfl
      · intro hflag
        obtain ⟨ev, hev, hevsd⟩ := weekCountLoop_start_mem e r.dayOfWeek r.repeatOccurrences
          fuel sd ed [] evs (by simp; omega) hflag hcl
        exact ⟨ev, hev, hevsd⟩
    · omega

/-- Witness for C5: the membership criterion applied to the Tuesday-mask
run, whose start day is in the mask. -/
theorem weekly_start_membership_witness :
    ∃ ev ∈ c5TueOut, ev.startDay = some ⟨2008, 1, 1⟩ :=
  (weekly_start_membership.1 2000 c5Tue c5TueOut
      ⟨RepeatTypeWeekly, DayOfWeekTuesday, 3, none⟩ ⟨2008, 1, 1⟩
      rfl rfl (by decide) rfl (by decide) weekly_start_membership.2.1).mpr (by decide)
theorem dateLeB_trans {a b c : Date} (h1 : dateLeB a b = true) (h2 : dateLeB b c = true) :
    dateLeB a c = true := by
  obtain ⟨ay, am, ad⟩ := a
  obtain ⟨by_, bm, bd⟩ := b
  obtain ⟨cy, cm, cd⟩ := c
  simp only [dateLeB, dateLtB, Bool.or_eq_true, Bool.and_eq_true, decide_eq_true_eq,
    beq_iff_eq, Date.mk.injEq] at *
  omega

theorem dateLtB_irrefl (a : Date) : dateLtB a a = false := by
  obtain ⟨ay, am, ad⟩ := a
  simp [dateLtB]

theorem dateLtB_asymm {a b : Date} (h : dateLtB a b = true) : dateLtB b a = false := by
  cases hba : dateLtB b a with
  | false => rfl
  | true =>
    have h2 := dateLtB_trans h hba
    rw [dateLtB_irrefl] at h2
    exact absurd h2 (by simp)

theorem dayCarry_ge (fuel : Nat) :
    ∀ (y : Int) (m : Nat) (d : Int), 1 ≤ m → m ≤ 12 → 1 ≤ d →
      dateLeB ⟨y, m, 1⟩ (dayCarry fuel y m d) = true := by
  induction fuel with
  | zero =>
    intro y m d hm1 hm2 hd
    show dateLeB ⟨y, m, 1⟩ ⟨y, m, d.toNat⟩ = true
    simp [dateLeB, dateLtB, Date.mk.injEq]
    omega
  | succ fuel ih =>
    intro y m d hm1 hm2 hd
    rw [dayCarry]
    rw [if_neg (by omega)]
    by_cases hin : d ≤ (daysInMonth y m : Int)
    · rw [if_pos hin]
      simp [dateLeB, dateLtB, Date.mk.injEq]
      omega
    · rw [if_neg hin]
      have hrec := ih (if m = 12 then y + 1 else y) (if m = 12 then 1 else m + 1)
        (d - (daysInMonth y m : Int)) (by split_ifs <;> omega) (by split_ifs <;> omega)
        (by omega)
      refine dateLeB_trans ?_ hrec
      simp [dateLeB, dateLtB, Date.mk.injEq]
      split_ifs with h12 <;> omega

theorem addDate_731_not_lt (t : Date) (h : DateOK t) :
    dateLtB (addDate 0 0 731 t) t = false := by
  obtain ⟨y, m, d⟩ := t
  obtain ⟨hm1, hm2, hd1, hd2⟩ := h
  dsimp only at hm1 hm2 hd1 hd2
  rw [addDate_norm0 0 731 y m d hm1 hm2]
  simp only [Int.add_zero]
  have hdim := daysInMonth_le y m
  rw [show (1000 : Nat) = 999 + 1 from rfl, dayCarry]
  rw [if_neg (by omega), if_neg (by omega)]
  have hge := dayCarry_ge 999 (if m = 12 then y + 1 else y) (if m = 12 then 1 else m + 1)
    ((d : Int) + 731 - (daysInMonth y m : Int)) (by split_ifs <;> omega)
    (by split_ifs <;> omega) (by omega)
  have hlt : dateLtB ⟨y, m, d⟩ ⟨if m = 12 then y + 1 else y, if m = 12 then 1 else m + 1, 1⟩
      = true := by
    simp [dateLtB, Date.mk.injEq]
    split_ifs with h12 <;> omega
  exact dateLtB_asymm (dateLtB_le_trans hlt hge)

theorem timeLtB_midnight_irrefl (d : Date) : timeLtB (midnight d) (midnight d) = false := by
  obtain ⟨y, m, dd⟩ := d
  simp [timeLtB, midnight, dateLtB]
/-- C7: for a repeating event whose other fields pass validation, `Validate`
raises a stop-date error exactly when the stop date precedes the start day
(as an instant) or exceeds the start day plus one day plus two years; in
particular a stop date equal to the start day is accepted. -/
theorem validate_stop_date_rule (e : Event) (r : Repeat) (sd : Date) (stop : Time)
    (hrep : e.isRepeating = true) (hsd : e.startDay = some sd) (hokd : DateOK sd)
    (hr : e.repeat = some r) (hsp : r.repeatStopDate = some stop)
    (htimes : ValidTimes e.startDay e.startTime e.endDay e.endTime e.zone e.isAllDay = none)
    (hstatus : ValidStatus e.status = true)
    (hocc1 : r.repeatOccurrences ≤ MaxRepeatOccurrence)
    (hocc2 : r.repeatOccurrences ≠ 1) (hocc3 : 0 ≤ r.repeatOccurrences)
    (htype : r.repeatType = RepeatTypeDaily ∨ r.repeatType = RepeatTypeWeekly ∨
      r.repeatType = RepeatTypeMonthly ∨ r.repeatType = RepeatTypeYearly)
    (hdow : r.repeatType = RepeatTypeWeekly → r.dayOfWeek ≠ 0) :
    ((Validate e = some .ErrorRepeatStopDateIsBeforeStart ∨
        Validate e = some .ErrorRepeatStopDateTooLarge) ↔
      (timeLtB stop (midnight sd) = true ∨
        timeLtB (timeAddDays (1 + MaxRepeatDurationDays) (midnight sd)) stop = true))
    ∧ (stop = midnight sd → Validate e = none) := by
  have hc1 : (r.repeatType == RepeatTypeWeekly && r.dayOfWeek == 0) = false := by
    by_cases hw : r.repeatType = RepeatTypeWeekly
    · have hd0 := hdow hw
      simp [hw, hd0]
    · simp [hw]
  have hc2 : (r.repeatType == RepeatTypeDaily || r.repeatType == RepeatTypeWeekly
      || r.repeatType == RepeatTypeMonthly || r.repeatType == RepeatTypeYearly) = true := by
    rcases htype with ht | ht | ht | ht <;> simp [ht]
  have hvr : ValidRepeat e =
      (if timeLtB stop (midnight sd) = true then some .ErrorRepeatStopDateIsBeforeStart
       else if timeLtB (timeAddDays (1 + MaxRepeatDurationDays) (midnight sd)) stop = true then
         some .ErrorRepeatStopDateTooLarge
       else none) := by
    unfold ValidRepeat
    rw [hrep]
    simp only [if_true]
    rw [hsd]
    dsimp only
    rw [hr]
    dsimp only
    rw [if_neg (by omega)]
    rw [if_neg (by simp only [Bool.or_eq_true, beq_iff_eq, decide_eq_true_eq]; omega)]
    rw [hsp]
    rw [show ((some stop == (none : Option Time)) && r.repeatOccurrences == 0) = false
      from by simp]
    simp only [Bool.false_eq_true, if_false]
    rw [hc1, hc2]
    simp only [Bool.false_eq_true, if_false, if_true]
  have hveq : Validate e = ValidRepeat e := by
    unfold Validate
    rw [htimes]
    cases hx : ValidRepeat e with
    | some err => rfl
    | none =>
      simp only [if_pos hstatus]
  rw [hveq, hvr]
  constructor
  · cases hb1 : timeLtB stop (midnight sd) with
    | true => simp [hb1]
    | false =>
      cases hb2 : timeLtB (timeAddDays (1 + MaxRepeatDurationDays) (midnight sd)) stop with
      | true => simp [hb1, hb2]
      | false => simp [hb1, hb2]
  · rintro rfl
    have h1 : timeLtB (midnight sd) (midnight sd) = false := timeLtB_midnight_irrefl sd
    have h2 : timeLtB (timeAddDays (1 + MaxRepeatDurationDays) (midnight sd)) (midnight sd)
        = false := by
      show timeLtB ⟨addDate 0 0 ((1 + MaxRepeatDurationDays : Nat) : Int) sd, 0⟩
        ⟨sd, 0⟩ = false
      have h731 : ((1 + MaxRepeatDurationDays : Nat) : Int) = 731 := by
        norm_num [MaxRepeatDurationDays]
      rw [h731]
      simp [timeLtB, addDate_731_not_lt sd hokd]
    simp [h1, h2]
def c7Event : Event := {
  isRepeating := true
  isAllDay := true
  zone := "UTC"
  startDay := some ⟨2008, 1, 1⟩
  endDay := some ⟨2008, 1, 1⟩
  «repeat» := some ⟨RepeatTypeDaily, 0, 0, some (midnight ⟨2008, 1, 1⟩)⟩
}

/-- Witness for C7: a Daily repeating event whose stop date equals its
start day is accepted by `Validate`. -/
theorem validate_stop_date_rule_witness : Validate c7Event = none :=
  (validate_stop_date_rule c7Event ⟨RepeatTypeDaily, 0, 0, some (midnight ⟨2008, 1, 1⟩)⟩
      ⟨2008, 1, 1⟩ (midnight ⟨2008, 1, 1⟩) rfl rfl (by decide) rfl rfl (by decide)
      (by decide) (by decide) (by decide) (by decide) (Or.inl rfl)
      (by intro hw; simp [RepeatTypeDaily, RepeatTypeWeekly] at hw)).2 rfl
/-- C8 (amended): `ValidateInvite` accepts exactly the invitations whose
status is Pending, Confirmed or Declined (Revoked is rejected) and whose
non-empty permission set satisfies the implication chain; the
invalid-status error is returned exactly when the status is outside those
three values. -/
theorem validateInvite_rule (a : Invite) :
    (ValidateInvite a = none ↔
      ((a.status = InviteStatusPending ∨ a.status = InviteStatusConfirmed ∨
          a.status = InviteStatusDeclined) ∧
        a.permission ≠ 0 ∧
        (hasFlag a.permission PermissionDelete = true →
          hasFlag a.permission PermissionCancel = true) ∧
        ((hasFlag a.permission PermissionCancel = true ∨
            hasFlag a.permission PermissionDelete = true) →
          hasFlag a.permission PermissionModify = true) ∧
        (hasFlag a.permission PermissionModify = true →
          hasFlag a.permission PermissionInvite = true) ∧
        ((hasFlag a.permission PermissionInvite = true ∨
            hasFlag a.permission PermissionModify = true ∨
            hasFlag a.permission PermissionCancel = true ∨
            hasFlag a.permission PermissionDelete = true) →
          hasFlag a.permission PermissionRead = true)))
    ∧ (ValidateInvite a = some .ErrorInvalidInviteStatus ↔
      ¬(a.status = InviteStatusPending ∨ a.status = InviteStatusConfirmed ∨
        a.status = InviteStatusDeclined)) := by
  unfold ValidateInvite
  cases hst : (a.status == InviteStatusPending || a.status == InviteStatusConfirmed
      || a.status == InviteStatusDeclined) <;>
  cases hp0 : (a.permission == 0) <;>
  cases hR : hasFlag a.permission PermissionRead <;>
  cases hM : hasFlag a.permission PermissionModify <;>
  cases hI : hasFlag a.permission PermissionInvite <;>
  cases hC : hasFlag a.permission PermissionCancel <;>
  cases hD : hasFlag a.permission PermissionDelete <;>
    simp_all <;> tauto

/-- C8 counterexample: an invitation with status Revoked and the full owner
permission set is rejected with the invalid-status error, although Revoked
is one of the four declared status values. -/
theorem c8_counterexample :
    ValidateInvite { eventId := 1, userId := 2, status := InviteStatusRevoked, permission := PermissionOwner } = some .ErrorInvalidInviteStatus := by
  decide

theorem validateInvite_owner (x y c u : Int) :
    ValidateInvite ⟨x, y, InviteStatusConfirmed, PermissionOwner, c, u⟩ = none := by
  unfold ValidateInvite
  dsimp only
  norm_num [InviteStatusConfirmed, InviteStatusPending, InviteStatusDeclined, hasFlag]
  decide

/-- Every stored event has an invitation recorded for its owner. -/
def storeOwnerInvariant (d : InMemoryDataStore) : Prop :=
  ∀ ev ∈ d.events, ∃ inv ∈ d.invites, inv.eventId = ev.id ∧ inv.userId = ev.ownerId

/-- The event as `InMemoryDataStore.Create` stores it: next id, timestamps,
and the self-referencing parent id for a parentless repeating event. -/
def createdEvent (d : InMemoryDataStore) (now : Int) (ev : Event) : Event :=
  if ev.isRepeating && ev.parentId == none then
    { ev with id := d.curId + 1, created := now, updated := now, parentId := some (d.curId + 1) }
  else
    { ev with id := d.curId + 1, created := now, updated := now }

theorem createdEvent_id (d : InMemoryDataStore) (now : Int) (ev : Event) :
    (createdEvent d now ev).id = d.curId + 1 := by
  unfold createdEvent
  split <;> rfl

theorem createdEvent_ownerId (d : InMemoryDataStore) (now : Int) (ev : Event) :
    (createdEvent d now ev).ownerId = ev.ownerId := by
  unfold createdEvent
  split <;> rfl

theorem create_ok (d : InMemoryDataStore) (now : Int) (ev : Event)
    (hv : Validate ev = none) :
    d.Create now ev =
      ({ events := d.events ++ [createdEvent d now ev]
         invites := d.invites ++
           [⟨d.curId + 1, ev.ownerId, InviteStatusConfirmed, PermissionOwner, now, now⟩]
         curId := d.curId + 1 },
       .ok (createdEvent d now ev)) := by
  unfold InMemoryDataStore.Create InMemoryDataStore.AddInvite createdEvent
  rw [hv]
  dsimp only
  by_cases hc : (ev.isRepeating && ev.parentId == none) = true
  · rw [if_pos hc]
    dsimp only
    rw [validateInvite_owner]
  · rw [if_neg hc]
    dsimp only
    rw [validateInvite_owner]

/-- C10: every successful `InMemoryDataStore.Create` records an invitation for
the new event's owner with status Confirmed and the full owner permission set,
and therefore preserves the invariant that each stored event has an
invitation recorded for its owner. -/
theorem create_records_owner_invite (d d' : InMemoryDataStore) (now : Int) (ev newEv : Event)
    (h : d.Create now ev = (d', .ok newEv)) :
    (∃ inv ∈ d'.invites, inv.eventId = newEv.id ∧ inv.userId = newEv.ownerId ∧
        inv.status = InviteStatusConfirmed ∧ inv.permission = PermissionOwner) ∧
    (storeOwnerInvariant d → storeOwnerInvariant d') := by
  cases hval : Validate ev with
  | some err =>
    unfold InMemoryDataStore.Create at h
    rw [hval] at h
    simp at h
  | none =>
    rw [create_ok d now ev hval] at h
    rw [Prod.mk.injEq] at h
    obtain ⟨hd, he⟩ := h
    injection he with he
    subst he
    subst hd
    constructor
    · refine ⟨⟨d.curId + 1, ev.ownerId, InviteStatusConfirmed, PermissionOwner, now, now⟩,
        ?_, ?_, ?_, rfl, rfl⟩
      · exact List.mem_append_right _ (List.mem_singleton_self _)
      · exact (createdEvent_id d now ev).symm
      · exact (createdEvent_ownerId d now ev).symm
    · intro hino ev' hmem
      dsimp only at hmem
      rw [List.mem_append, List.mem_singleton] at hmem
      cases hmem with
      | inl hm =>
        obtain ⟨inv, hi, h1, h2⟩ := hino ev' hm
        exact ⟨inv, List.mem_append_left _ hi, h1, h2⟩
      | inr hm =>
        subst hm
        exact ⟨⟨d.curId + 1, ev.ownerId, InviteStatusConfirmed, PermissionOwner, now, now⟩,
          List.mem_append_right _ (List.mem_singleton_self _),
          (createdEvent_id d now ev).symm, (createdEvent_ownerId d now ev).symm⟩

/-- The result of a concrete `Create` on the empty store. -/
def c10Res : InMemoryDataStore × Except Err Event :=
  InMemoryDataStore.Create ⟨[], [], 0⟩ 0 c1Daily

theorem create_records_owner_invite_witness :
    (∃ inv ∈ c10Res.1.invites,
        inv.eventId = (createdEvent ⟨[], [], 0⟩ 0 c1Daily).id ∧
        inv.userId = (createdEvent ⟨[], [], 0⟩ 0 c1Daily).ownerId ∧
        inv.status = InviteStatusConfirmed ∧ inv.permission = PermissionOwner) ∧
    (storeOwnerInvariant ⟨[], [], 0⟩ → storeOwnerInvariant c10Res.1) :=
  create_records_owner_invite ⟨[], [], 0⟩ c10Res.1 0 c1Daily (createdEvent ⟨[], [], 0⟩ 0 c1Daily)
    (by
      show InMemoryDataStore.Create ⟨[], [], 0⟩ 0 c1Daily =
        (c10Res.1, .ok (createdEvent ⟨[], [], 0⟩ 0 c1Daily))
      unfold c10Res
      rw [create_ok ⟨[], [], 0⟩ 0 c1Daily (by decide)])

/-- C9: `Query.Matches` returns `false` for every query when the event
argument is absent. -/
theorem matches_absent_event (q : Query) : q.Matches none = false := rfl

/-! ## C6: the this-and-after edit scope -/

/-- First member of a two-member series: starts 2008-01-01 08:00, ends
2008-01-03 09:00 (each occurrence spans two days). -/
def c6E1 : Event :=
  { id := 1
    parentId := some 1
    isRepeating := true
    startDay := some ⟨2008, 1, 1⟩
    startTime := .tvalid 480
    endDay := some ⟨2008, 1, 3⟩
    endTime := .tvalid 540 }

/-- Second member: starts 2008-01-02 08:00, ends 2008-01-04 09:00. -/
def c6E2 : Event :=
  { id := 2
    parentId := some 1
    isRepeating := true
    startDay := some ⟨2008, 1, 2⟩
    startTime := .tvalid 480
    endDay := some ⟨2008, 1, 4⟩
    endTime := .tvalid 540 }

/-- A store holding the series in ascending start order. -/
def c6Store : InMemoryDataStore := { events := [c6E1, c6E2], invites := [], curId := 2 }

/-- The target's start instant (2008-01-02 08:00). -/
def c6Start : Time := ⟨⟨2008, 1, 2⟩, 480 * nsPerMinute⟩

/-- Follows the claim's words, not the code: the ids of the stored series
members (sharing the target's parent id) whose own (start date, start time)
instant is at or after the target's start.  The `c6Store` members are
stored in ascending start order, so for that store this list is also the
claim's ascending enumeration. -/
def claimThisAndAfterIds (d : InMemoryDataStore) (e : Event) : List Int :=
  match e.Start with
  | none => []
  | some st =>
    (d.events.filter (fun ev =>
      ev.parentId == e.parentId &&
      match ev.Start with
      | some s => !(timeLtB s st)
      | none => false)).map Event.id

/-- C6 counterexample: editing the second member of `c6Store` with scope
this-and-after mutates both members (the code's query compares each
member's end against the target's start, and the first member's end
2008-01-03 lies after the target's start 2008-01-02), whereas the claim's
start-based rule selects only the target itself. -/
theorem c6_counterexample :
    applyEditBasedOnRepeatEditType c6Store RepeatEditTypeThisAndAfter 2 = .ok [1, 2] ∧
    claimThisAndAfterIds c6Store c6E2 = [2] := ⟨by decide, by decide⟩

/-- The event's end lies at or after the instant `st` under the code's
string comparisons: the end day is not before `st`'s day, and, when the end
time is set, the end (day, minute) pair is not before `st`'s. -/
def endAtOrAfter (st : Time) (ev : Event) : Bool :=
  !(dayGtFmt st.day ev.endDay) &&
  !((ev.endTime != TimeVal.tempty) && dayTimeGtFmt st.day (timeMinutes st) ev.endDay ev.endTime)

/-- C6 (amended): with scope this-and-after, a target id that resolves to
no event fails with the event-not-found error and nothing is mutated; on a
target with a parent id and a parseable start, the mutation is applied to
exactly the stored series members whose END (day, time) lies at or after
the target's START, in storage order — not to the members whose own start
lies at or after the target's, and with no re-sorting. -/
theorem thisAndAfter_edit_scope (d : InMemoryDataStore) (eventId : Int) :
    (d.Get eventId = none →
      applyEditBasedOnRepeatEditType d RepeatEditTypeThisAndAfter eventId =
        .error .ErrorEventNotFound) ∧
    (∀ e pid st, d.Get eventId = some e → e.parentId = some pid → e.Start = some st →
      applyEditBasedOnRepeatEditType d RepeatEditTypeThisAndAfter eventId =
        .ok ((d.events.filter (fun ev =>
            endAtOrAfter st ev && ev.parentId == some pid)).map Event.id)) := by
  constructor
  · intro hget
    unfold applyEditBasedOnRepeatEditType
    rw [if_neg (by decide), if_neg (by decide), if_pos (by decide), hget]
  · intro e pid st hget hpid hst
    unfold applyEditBasedOnRepeatEditType
    rw [if_neg (by decide), if_neg (by decide), if_pos (by decide), hget]
    dsimp only
    unfold getAllRepeatingEventsThisAndAfter
    rw [hpid]
    dsimp only
    rw [hst]
    dsimp only
    unfold InMemoryDataStore.Query
    suffices hpred : ∀ ev ∈ d.events,
        Query.Matches { start := some st, parentIds := [pid] } (some ev) =
          (endAtOrAfter st ev && ev.parentId == some pid) by
      rw [List.filter_congr hpred]
    intro ev _
    unfold Query.Matches endAtOrAfter
    dsimp only
    simp [List.any, Bool.and_assoc]

theorem thisAndAfter_edit_scope_witness :
    applyEditBasedOnRepeatEditType c6Store RepeatEditTypeThisAndAfter 5 =
      .error .ErrorEventNotFound ∧
    applyEditBasedOnRepeatEditType c6Store RepeatEditTypeThisAndAfter 2 =
      .ok ((c6Store.events.filter (fun ev =>
          endAtOrAfter c6Start ev && ev.parentId == some 1)).map Event.id) :=
  ⟨(thisAndAfter_edit_scope c6Store 5).1 (by decide),
   (thisAndAfter_edit_scope c6Store 2).2 c6E2 1 c6Start (by decide) rfl rfl⟩
